import Mathlib

/-!
Verification of the beam reinforcement detailing core of the repository
(`app/modules/despiece/engine.py`, `app/services/detailing/segmentation.py`,
`app/modules/drawing/rebar_drawer.py`).

All beam-axis coordinates and lengths are modelled as exact rationals (`ℚ`);
the Python floats only ever hold decimal literals and the arithmetic the
algorithms perform on them, so the rational model is the intended real-number
semantics of the code.  Bounded `while` loops are modelled by structural
recursion on an explicit fuel equal to the loop's iteration cap.
-/

namespace Despiece

/-- Python's binary `max` on exact rationals, written so that kernel reduction
(`decide`) works on it. -/
def qmax (a b : ℚ) : ℚ := if a ≤ b then b else a

/-- Python's binary `min` on exact rationals, written so that kernel reduction
(`decide`) works on it. -/
def qmin (a b : ℚ) : ℚ := if a ≤ b then a else b

theorem qmax_eq_max (a b : ℚ) : qmax a b = max a b := by
  simp only [qmax, max_def]

theorem qmin_eq_min (a b : ℚ) : qmin a b = min a b := by
  simp only [qmin, min_def]

/-! ## Code parameter resolver (`app/modules/despiece/engine.py`) -/

/-- `TipoEstructura`: energy-dissipation capacity classes (NSR-10). -/
inductive TipoEstructura where
  | DES
  | DMO
  | DMI
deriving Repr, DecidableEq

/-- `ProyectoVigaNSR10.FACTOR_TRASLAPO.get(longitud_barra, 1.3)`:
lap factor keyed by commercial bar length with default `1.3`. -/
def factorTraslapo (longitudBarra : ℚ) : ℚ :=
  if longitudBarra = 6 then 1.3
  else if longitudBarra = 9 then 1.4
  else if longitudBarra = 12 then 1.5
  else 1.3

/-- `ProyectoVigaNSR10.LONGITUD_DESARROLLO[tipo_estructura]`. -/
def longitudDesarrolloBase : TipoEstructura → ℚ
  | .DES => 50
  | .DMO => 40
  | .DMI => 30

/-- `ProyectoVigaNSR10.LONGITUD_MIN_TRASLAPO`. -/
def longitudMinTraslapo : ℚ := 30

/-- `ProyectoVigaNSR10.DISTANCIA_MIN_TRASLAPO`. -/
def distanciaMinTraslapo : ℚ := 1.5

/-- `ProyectoVigaNSR10.calcular_longitud_traslapo`. -/
def calcularLongitudTraslapo (diametro : ℚ) (tipo : TipoEstructura)
    (longitudBarra : ℚ) : ℚ :=
  let longMin := longitudMinTraslapo * diametro / 1000
  let factor := factorTraslapo longitudBarra
  let longDesarrollo := longitudDesarrolloBase tipo * diametro / 1000
  qmax (qmax longMin (longDesarrollo * factor)) 0.3

/-- One pass of the `for _ in range(num_traslapos)` loop body of
`calcular_ubicacion_traslapos`, threading the accumulated list and
`longitud_restante`. -/
def traslapoStep (longTraslapo longitudBarra : ℚ)
    (st : List (ℚ × ℚ) × ℚ) : List (ℚ × ℚ) × ℚ :=
  let traslapos := st.1
  let longitudRestante := st.2
  let inicio :=
    match traslapos.getLast? with
    | none => longitudBarra - longTraslapo
    | some prev => prev.2 + distanciaMinTraslapo
  let fin := inicio + longTraslapo
  let (inicio, fin) :=
    if fin > longitudRestante then
      let ajuste := fin - longitudRestante
      (inicio - ajuste, fin - ajuste)
    else (inicio, fin)
  (traslapos ++ [(inicio, fin)], longitudRestante - (longitudBarra - longTraslapo))

/-- `ProyectoVigaNSR10.calcular_ubicacion_traslapos`. -/
def calcularUbicacionTraslapos (longitudTotal longitudBarra diametro : ℚ)
    (tipo : TipoEstructura) : List (ℚ × ℚ) :=
  if longitudTotal ≤ longitudBarra then []
  else
    let longTraslapo := calcularLongitudTraslapo diametro tipo longitudBarra
    let numTraslapos := (⌈longitudTotal / longitudBarra⌉ - 1).toNat
    ((traslapoStep longTraslapo longitudBarra)^[numTraslapos] ([], longitudTotal)).1

/-! ## Data model of the segmentation engine
(`app/schemas/tools/despiece.py` as used by
`app/services/detailing/segmentation.py`) -/

/-- `ProhibitedZone`: a linear no-splice region along the beam axis. -/
structure ProhibitedZone where
  startM : ℚ
  endM : ℚ
  description : String
deriving Repr, DecidableEq

/-- A splice record: the dict payload built by the segmentation strategies
(keys `start`, `end`, `length`, `type`, `position`, and the optional
`adjusted` / `original_center` set by coordination). -/
structure Splice where
  sStart : ℚ
  sEnd : ℚ
  sLen : ℚ
  sType : String
  sPos : String
  adjusted : Bool := false
  originalCenter : Option ℚ := none
deriving Repr, DecidableEq

/-- `RebarDetail`: one bar (or one segment of a bar after splitting). -/
structure RebarDetail where
  id : String
  diameter : String
  position : String
  rtype : String
  lengthM : ℚ
  startM : ℚ
  endM : ℚ
  hookType : Option String
  splices : Option (List Splice)
  quantity : ℕ
  developmentLengthM : ℚ
  notes : Option String
deriving Repr, DecidableEq

/-- The numeric keyword parameters of `_split_bar_by_max_length`, together
with `BeamDetailingService.min_edge_cover_m` (an attribute of the service
object the mixin is installed on, treated here as a parameter). -/
structure SegParams where
  maxLength : ℚ
  spliceLength : ℚ
  hookLength : ℚ
  edgeCover : ℚ
  beamLength : ℚ
  minEdgeCover : ℚ
deriving Repr, DecidableEq

/-- `tolerance = 1e-3` used throughout `segmentation.py`. -/
def tol : ℚ := 1/1000

/-- The `1e-6` guard used by the segmentation loops. -/
def eps6 : ℚ := 1/1000000

/-- `SegmentationMixin._overlaps_prohibited_zone`. -/
def overlapsProhibitedZone (s e : ℚ) (zones : List ProhibitedZone) : Bool :=
  zones.any (fun z => qmax s z.startM < qmin e z.endM)

/-- `SegmentationMixin._find_overlapping_zone`. -/
def findOverlappingZone (s e : ℚ) (zones : List ProhibitedZone) :
    Option ProhibitedZone :=
  zones.find? (fun z => qmax s z.startM < qmin e z.endM)

/-- The `while attempts < 20` loop of `_adjust_segment_end_for_splice_zones`,
by recursion on the remaining attempts; also returns the number of loop
bodies executed. -/
def adjustGo (currentStart candidateEnd spliceLength : ℚ)
    (zones : List ProhibitedZone) : ℕ → ℚ → ℚ × ℕ
  | 0, adjustedEnd => (adjustedEnd, 0)
  | n + 1, adjustedEnd =>
    let jointStart0 := adjustedEnd - spliceLength
    let jointStart :=
      if jointStart0 < currentStart + tol then currentStart + tol else jointStart0
    if overlapsProhibitedZone jointStart adjustedEnd zones = false then
      (adjustedEnd, 1)
    else
      match findOverlappingZone jointStart adjustedEnd zones with
      | none => (adjustedEnd, 1)
      | some zone =>
        let shiftedEnd := zone.startM - tol
        if shiftedEnd - spliceLength ≤ currentStart + tol then (candidateEnd, 1)
        else
          let r := adjustGo currentStart candidateEnd spliceLength zones n shiftedEnd
          (r.1, r.2 + 1)

/-- `SegmentationMixin._adjust_segment_end_for_splice_zones`. -/
def adjustSegmentEnd (currentStart candidateEnd spliceLength : ℚ)
    (zones : List ProhibitedZone) : ℚ :=
  (adjustGo currentStart candidateEnd spliceLength zones 20 candidateEnd).1

/-- `"antes" in (zone.description or "").lower()`. -/
def hasAntes (s : String) : Bool :=
  s.toLower.toList.tails.any (fun t => "antes".toList.isPrefixOf t)

/-- `SegmentationMixin._find_next_before_zone`. -/
def findNextBeforeZone (position : ℚ) (zones : List ProhibitedZone) :
    Option ProhibitedZone :=
  zones.find? (fun z => position + tol ≤ z.startM ∧ hasAntes z.description)

/-- The scan of `SegmentationMixin._find_zone_end_before`: remember the last
`end` seen strictly before `position - tol`, stopping at the first zone that
is not (the Python loop `break`s there). -/
def findZoneEndBeforeGo (position : ℚ) :
    List ProhibitedZone → Option ℚ → Option ℚ
  | [], acc => acc
  | z :: rest, acc =>
    if z.endM < position - tol then findZoneEndBeforeGo position rest (some z.endM)
    else acc

/-- `SegmentationMixin._find_zone_end_before`. -/
def findZoneEndBefore (position : ℚ) (zones : List ProhibitedZone) : Option ℚ :=
  findZoneEndBeforeGo position zones none

/-- `SegmentationMixin._prefer_splice_in_previous_corridor`. -/
def preferSplicePrevCorridor (currentStart jointStart candidateEnd
    spliceLength : ℚ) (zones : List ProhibitedZone) : ℚ :=
  if spliceLength ≤ 0 then candidateEnd
  else
    match findNextBeforeZone jointStart zones with
    | none => candidateEnd
    | some beforeZone =>
      match findZoneEndBefore beforeZone.startM zones with
      | none => candidateEnd
      | some prevEnd =>
        if prevEnd < currentStart + tol then candidateEnd
        else
          let corridorEnd := beforeZone.startM - tol
          let available := corridorEnd - prevEnd
          if available < spliceLength - tol then candidateEnd
          else
            let targetEnd := qmin (prevEnd + spliceLength) corridorEnd
            if targetEnd ≤ currentStart + tol then candidateEnd
            else targetEnd

/-- `SegmentationMixin._target_bottom_corridor_end`. -/
def targetBottomCorridorEnd (currentStart candidateEnd spliceLength : ℚ)
    (zones : List ProhibitedZone) : Option ℚ :=
  match findNextBeforeZone currentStart zones with
  | none => none
  | some beforeZone =>
    match findZoneEndBefore beforeZone.startM zones with
    | none => none
    | some prevEnd =>
      let corridorEnd := beforeZone.startM - tol
      let target := qmin (qmin (prevEnd + spliceLength) corridorEnd) candidateEnd
      if target - currentStart < spliceLength - tol then none
      else some target

/-- The `while pos <= end_range + tolerance` position builder of
`_find_safe_splice_position`: positions `start_range + i * step` for
`i = 0, …, ⌊(end_range + tol - start_range) / step⌋`. -/
def safePositionsBase (startRange endRange step : ℚ) : List ℚ :=
  (List.range (⌊(endRange + tol - startRange) / step⌋.toNat + 1)).map
    (fun i => startRange + step * i)

/-- `SegmentationMixin._find_safe_splice_position` (with the default
`step = 0.1`): scan base positions plus midpoints of consecutive base
positions, deduplicated and sorted ascending, for the first center whose
splice window clears every prohibited zone. -/
def findSafeSplicePosition (startRange endRange spliceLength : ℚ)
    (zones : List ProhibitedZone) : Option ℚ :=
  if spliceLength ≤ 0 ∨ endRange - startRange ≤ tol then none
  else
    let step := qmax 0.1 tol
    let base := safePositionsBase startRange endRange step
    let mids := (base.zip base.tail).map (fun p => (p.1 + p.2) / 2)
    let positions := (base ++ mids).dedup.mergeSort (fun a b => a ≤ b)
    positions.find? (fun position =>
      let spliceStart := position - spliceLength / 2
      let spliceEnd := position + spliceLength / 2
      zones.all (fun z => ¬(qmax spliceStart z.startM < qmin spliceEnd z.endM)))

/-! ## The segmentation strategies
(`_split_top_bar_strategy`, `_split_bottom_bar_strategy`,
`_split_bar_by_max_length`) -/

/-- Output of one strategy loop: the appended segments and joints, the number
of loop bodies executed, and whether the `safety_counter < 100` cap stopped
the loop while work remained. -/
structure LoopOut where
  segs : List RebarDetail
  joints : List Splice
  count : ℕ
  capped : Bool
deriving Repr, DecidableEq

/-- `f"{piece_index:02d}"` for the piece indices that occur (≥ 1). -/
def pad2 (n : ℕ) : String := if n < 10 then "0" ++ toString n else toString n

/-- The `RebarDetail(...)` segment constructor common to both strategies. -/
def mkSegment (bar : RebarDetail) (piece : ℕ) (s e : ℚ) (tag : String) :
    RebarDetail :=
  { id := bar.id ++ "-S" ++ pad2 piece
    diameter := bar.diameter
    position := bar.position
    rtype := bar.rtype
    lengthM := e - s
    startM := s
    endM := e
    hookType := bar.hookType
    splices := none
    quantity := bar.quantity
    developmentLengthM := bar.developmentLengthM
    notes := some ("Segmento " ++ toString piece ++ " - " ++ tag) }

/-- `cover = max(service.min_edge_cover_m, edge_cover or 0.0)`. -/
def coverOf (P : SegParams) : ℚ := qmax P.minEdgeCover P.edgeCover

/-- `has_start_hook = bool(hook_length and bar.start_m <= cover + tolerance)`. -/
def hasStartHookOf (P : SegParams) (bar : RebarDetail) : Bool :=
  P.hookLength ≠ 0 ∧ bar.startM ≤ coverOf P + tol

/-- `has_end_hook = bool(hook_length and bar.end_m >= beam_length - cover - tolerance)`. -/
def hasEndHookOf (P : SegParams) (bar : RebarDetail) : Bool :=
  P.hookLength ≠ 0 ∧ P.beamLength - coverOf P - tol ≤ bar.endM

/-- The outcome of one `while`-loop body: `halt` for the `break` paths (with
whatever the body appended first), `cont` for the fall-through to the next
iteration with the appended segment, the recorded joint, and the next
`current_start`. -/
inductive StepRes where
  | halt (segs : List RebarDetail) (joints : List Splice)
  | cont (seg : RebarDetail) (joint : Splice) (next : ℚ)
deriving Repr, DecidableEq

/-- The usable maximum after hook deductions (`usable_max` in both
strategies), including the graceful-degradation fallback to the full maximum
when the deductions consume it. -/
def usableMaxOf (P : SegParams) (hasStartHook hasEndHook : Bool) (piece : ℕ)
    (remaining : ℚ) : ℚ :=
  let hookDeduction :=
    (if hasStartHook = true ∧ piece = 1 then P.hookLength else 0) +
    (if hasEndHook = true ∧ remaining ≤ P.maxLength + tol then P.hookLength else 0)
  let usableMax0 := P.maxLength - hookDeduction
  if usableMax0 ≤ 0 then P.maxLength else usableMax0

/-- The `candidate_end` computation of one `_split_top_bar_strategy` loop
body: hook deductions, the 60 % first-piece rule, and the
`prefer_previous_zone` corridor preference.  (In the source `is_last_segment`
always equals `candidate_end >= bar.end_m - tolerance` for the current
candidate, so it is recomputed from the candidate in `topSegmentEnd`.) -/
def topCandidate (P : SegParams) (bar : RebarDetail)
    (zones : List ProhibitedZone) (preferPrev hasStartHook hasEndHook : Bool)
    (s : ℚ) (piece : ℕ) : ℚ :=
  let remaining := qmax (bar.endM - s) 0
  let usableMax := usableMaxOf P hasStartHook hasEndHook piece remaining
  let segmentLength0 := qmin usableMax remaining
  let segmentLength :=
    if piece = 1 ∧ P.maxLength * 1.8 < remaining then
      qmin (usableMax * 0.6) remaining
    else segmentLength0
  let candidateEnd0 := s + segmentLength
  if preferPrev = true ∧ decide (bar.endM - tol ≤ candidateEnd0) = false ∧
      0 < P.spliceLength then
    let jointStartCand := qmax bar.startM (candidateEnd0 - P.spliceLength)
    let remainingAfterJoint := bar.endM - jointStartCand
    if remainingAfterJoint ≤ P.maxLength + tol then
      let preferredEnd :=
        preferSplicePrevCorridor s jointStartCand candidateEnd0
          P.spliceLength zones
      if preferredEnd < candidateEnd0 - tol then preferredEnd
      else candidateEnd0
    else candidateEnd0
  else candidateEnd0

/-- The `segment_end` of one `_split_top_bar_strategy` loop body: the bar end
when the candidate is final, otherwise the zone-adjusted candidate. -/
def topSegmentEnd (P : SegParams) (bar : RebarDetail)
    (zones : List ProhibitedZone) (preferPrev hasStartHook hasEndHook : Bool)
    (s : ℚ) (piece : ℕ) : ℚ :=
  let candidateEnd := topCandidate P bar zones preferPrev hasStartHook
    hasEndHook s piece
  if bar.endM - tol ≤ candidateEnd then bar.endM
  else adjustSegmentEnd s candidateEnd P.spliceLength zones

/-- One body of the `while` loop of `_split_top_bar_strategy` at
`current_start = s`, `piece_index = piece` (the loop guard is checked by
`topLoop` below). -/
def topStep (P : SegParams) (bar : RebarDetail) (zones : List ProhibitedZone)
    (preferPrev hasStartHook hasEndHook : Bool) (s : ℚ) (piece : ℕ) :
    StepRes :=
  if qmax (bar.endM - s) 0 ≤ 0 then .halt [] []
  else
    let segmentEnd := topSegmentEnd P bar zones preferPrev hasStartHook
      hasEndHook s piece
    if segmentEnd - s ≤ 0 then .halt [] []
    else if bar.endM - eps6 ≤ segmentEnd then
      .halt [mkSegment bar piece s segmentEnd "Superior"] []
    else
      let jointStart := qmax bar.startM (segmentEnd - P.spliceLength)
      .cont (mkSegment bar piece s segmentEnd "Superior")
        ⟨jointStart, segmentEnd, segmentEnd - jointStart,
          "lap_splice_class_b", "top", false, none⟩
        jointStart

/-- The `while` loop of `_split_top_bar_strategy`, recursing on the remaining
fuel (`100 - safety_counter`); arguments `s`, `piece` are `current_start` and
`piece_index`. -/
def topLoop (P : SegParams) (bar : RebarDetail) (zones : List ProhibitedZone)
    (preferPrev hasStartHook hasEndHook : Bool) :
    ℕ → ℚ → ℕ → LoopOut
  | 0, s, _ =>
    if s < bar.endM - eps6 then ⟨[], [], 0, true⟩ else ⟨[], [], 0, false⟩
  | fuel + 1, s, piece =>
    if s < bar.endM - eps6 then
      match topStep P bar zones preferPrev hasStartHook hasEndHook s piece with
      | .halt segs joints => ⟨segs, joints, 1, false⟩
      | .cont seg joint next =>
        let rest :=
          topLoop P bar zones preferPrev hasStartHook hasEndHook fuel next
            (piece + 1)
        ⟨seg :: rest.segs, joint :: rest.joints, rest.count + 1, rest.capped⟩
    else ⟨[], [], 0, false⟩

/-- The `first_segment_target` computation at the head of
`_split_bottom_bar_strategy`. -/
def firstSegmentTarget (totalLength maxLength spliceLength
    spliceOffsetRatio : ℚ) : ℚ :=
  let offsetRatio := qmax 0 (qmin spliceOffsetRatio 0.6)
  let t0 :=
    if tol < offsetRatio then
      qmin (totalLength * (0.4 + offsetRatio * 0.5)) maxLength
    else qmin (totalLength * 0.45) (maxLength * 0.8)
  qmin (qmax t0 (spliceLength * 1.5)) totalLength

/-- The `candidate_end` / `is_last_segment` computation of one
`_split_bottom_bar_strategy` loop body: the first-piece target cap, then —
for the first piece only — corridor targeting and the safe-position scan,
then the same zone adjustment as the top strategy for the remaining cases;
`bottomCandidate0` is the initial `candidate_end` with the first-piece target
cap. -/
def bottomCandidate0 (P : SegParams) (bar : RebarDetail) (firstTarget : ℚ)
    (hasStartHook hasEndHook : Bool) (s : ℚ) (piece : ℕ) : ℚ :=
  let remaining := qmax (bar.endM - s) 0
  let usableMax := usableMaxOf P hasStartHook hasEndHook piece remaining
  let segmentLength0 := qmin usableMax remaining
  let segmentLength :=
    if piece = 1 then qmin segmentLength0 firstTarget else segmentLength0
  qmin (s + segmentLength) bar.endM

/-- The first-piece corridor-targeting stage of the bottom strategy
(`c1`): the candidate, the current `is_last_segment`, and the
`needs_zone_adjustment` flag. -/
def bottomC1 (P : SegParams) (bar : RebarDetail)
    (zones : List ProhibitedZone) (firstTarget : ℚ)
    (hasStartHook hasEndHook : Bool) (s : ℚ) (piece : ℕ) : ℚ × Bool × Bool :=
  let candidateEnd0 := bottomCandidate0 P bar firstTarget hasStartHook
    hasEndHook s piece
  let isLast0 : Bool := decide (bar.endM - tol ≤ candidateEnd0)
  if piece = 1 ∧ isLast0 = false then
    match targetBottomCorridorEnd s candidateEnd0 P.spliceLength zones with
    | some corridorTarget =>
      let ce := qmin bar.endM corridorTarget
      (ce, decide (bar.endM - tol ≤ ce), false)
    | none => (candidateEnd0, isLast0, true)
  else (candidateEnd0, isLast0, true)

/-- The first-piece safe-position-scan stage of the bottom strategy (`c2`). -/
def bottomC2 (P : SegParams) (bar : RebarDetail)
    (zones : List ProhibitedZone) (firstTarget : ℚ)
    (hasStartHook hasEndHook : Bool) (s : ℚ) (piece : ℕ) : ℚ × Bool × Bool :=
  let c1 := bottomC1 P bar zones firstTarget hasStartHook hasEndHook s piece
  if piece = 1 ∧ c1.2.1 = false ∧ c1.2.2 = true then
    let jointStartCand := qmax bar.startM (c1.1 - P.spliceLength)
    if overlapsProhibitedZone jointStartCand c1.1 zones = true then
      match findSafeSplicePosition (s + P.spliceLength) c1.1
          P.spliceLength zones with
      | some safeCenter =>
        let ce := qmin bar.endM safeCenter
        (ce, c1.2.1, false)
      | none => c1
    else (c1.1, c1.2.1, false)
  else c1

def bottomCandidate (P : SegParams) (bar : RebarDetail)
    (zones : List ProhibitedZone) (firstTarget : ℚ)
    (hasStartHook hasEndHook : Bool) (s : ℚ) (piece : ℕ) : ℚ × Bool :=
  let c2 := bottomC2 P bar zones firstTarget hasStartHook hasEndHook s piece
  if c2.2.1 = false ∧ c2.2.2 = true then
    let ce := adjustSegmentEnd s c2.1 P.spliceLength zones
    (ce, decide (bar.endM - tol ≤ ce))
  else (c2.1, c2.2.1)

/-- The `segment_end` of one `_split_bottom_bar_strategy` loop body. -/
def bottomSegmentEnd (P : SegParams) (bar : RebarDetail)
    (zones : List ProhibitedZone) (firstTarget : ℚ)
    (hasStartHook hasEndHook : Bool) (s : ℚ) (piece : ℕ) : ℚ :=
  let c := bottomCandidate P bar zones firstTarget hasStartHook hasEndHook s
    piece
  if c.2 = true then bar.endM else c.1

/-- One body of the `while` loop of `_split_bottom_bar_strategy` (same shape
as `topStep`, with the bottom-specific first-piece handling). -/
def bottomStep (P : SegParams) (bar : RebarDetail)
    (zones : List ProhibitedZone) (firstTarget : ℚ)
    (hasStartHook hasEndHook : Bool) (s : ℚ) (piece : ℕ) : StepRes :=
  if qmax (bar.endM - s) 0 ≤ 0 then .halt [] []
  else
    let segmentEnd := bottomSegmentEnd P bar zones firstTarget hasStartHook
      hasEndHook s piece
    if segmentEnd - s ≤ 0 then .halt [] []
    else if bar.endM - eps6 ≤ segmentEnd then
      .halt [mkSegment bar piece s segmentEnd "Inferior"] []
    else
      let jointStart := qmax bar.startM (segmentEnd - P.spliceLength)
      .cont (mkSegment bar piece s segmentEnd "Inferior")
        ⟨jointStart, segmentEnd, segmentEnd - jointStart,
          "lap_splice_class_b", "bottom", false, none⟩
        jointStart

/-- The `while` loop of `_split_bottom_bar_strategy`. -/
def bottomLoop (P : SegParams) (bar : RebarDetail)
    (zones : List ProhibitedZone) (firstTarget : ℚ)
    (hasStartHook hasEndHook : Bool) : ℕ → ℚ → ℕ → LoopOut
  | 0, s, _ =>
    if s < bar.endM - eps6 then ⟨[], [], 0, true⟩ else ⟨[], [], 0, false⟩
  | fuel + 1, s, piece =>
    if s < bar.endM - eps6 then
      match bottomStep P bar zones firstTarget hasStartHook hasEndHook s piece with
      | .halt segs joints => ⟨segs, joints, 1, false⟩
      | .cont seg joint next =>
        let rest :=
          bottomLoop P bar zones firstTarget hasStartHook hasEndHook fuel next
            (piece + 1)
        ⟨seg :: rest.segs, joint :: rest.joints, rest.count + 1, rest.capped⟩
    else ⟨[], [], 0, false⟩

/-- The final `for idx, segment in enumerate(segments)` pass attaching to each
segment the joint on its left and on its right. -/
def attachSplices (segments : List RebarDetail) (joints : List Splice) :
    List RebarDetail :=
  segments.enum.map (fun p =>
    let ss := (if p.1 = 0 then [] else (joints[p.1 - 1]?).toList) ++
      (joints[p.1]?).toList
    { p.2 with splices := if ss.isEmpty then none else some ss })

/-- `_split_top_bar_strategy` up to (and excluding) the splice-attachment
pass: runs the loop with the full fuel `100` from the bar's start. -/
def splitTopBarCore (P : SegParams) (bar : RebarDetail)
    (zones : List ProhibitedZone) (preferPrev : Bool) : LoopOut :=
  topLoop P bar zones preferPrev (hasStartHookOf P bar) (hasEndHookOf P bar)
    100 bar.startM 1

/-- `_split_top_bar_strategy`. -/
def splitTopBar (P : SegParams) (bar : RebarDetail)
    (zones : List ProhibitedZone) (preferPrev : Bool) : List RebarDetail :=
  let out := splitTopBarCore P bar zones preferPrev
  if out.segs.isEmpty then [bar] else attachSplices out.segs out.joints

/-- `_split_bottom_bar_strategy` up to (and excluding) the splice-attachment
pass. -/
def splitBottomBarCore (P : SegParams) (bar : RebarDetail)
    (zones : List ProhibitedZone) (spliceOffsetRatio : ℚ) : LoopOut :=
  let totalLength := qmax (bar.endM - bar.startM) 0
  bottomLoop P bar zones
    (firstSegmentTarget totalLength P.maxLength P.spliceLength spliceOffsetRatio)
    (hasStartHookOf P bar) (hasEndHookOf P bar) 100 bar.startM 1

/-- `_split_bottom_bar_strategy`. -/
def splitBottomBar (P : SegParams) (bar : RebarDetail)
    (zones : List ProhibitedZone) (spliceOffsetRatio : ℚ) : List RebarDetail :=
  let out := splitBottomBarCore P bar zones spliceOffsetRatio
  if out.segs.isEmpty then [bar] else attachSplices out.segs out.joints

/-- Warnings the entry point can log (via the ambient logger in the source). -/
inductive SegWarning where
  | spliceTooLarge
deriving Repr, DecidableEq

/-- `_split_bar_by_max_length`: the segmentation entry point, returning the
segment list together with the warnings logged by the entry guards. -/
def splitBarByMaxLength (P : SegParams) (bar : RebarDetail)
    (zones : List ProhibitedZone) (preferPrev : Bool)
    (spliceOffsetRatio : ℚ) (isBottomBar : Bool) :
    List RebarDetail × List SegWarning :=
  if P.maxLength ≤ 0 ∨ bar.lengthM ≤ P.maxLength then ([bar], [])
  else if P.spliceLength ≤ 0 ∨ P.maxLength ≤ P.spliceLength then
    ([bar], [.spliceTooLarge])
  else if isBottomBar = true then
    (splitBottomBar P bar zones spliceOffsetRatio, [])
  else (splitTopBar P bar zones preferPrev, [])

/-! ## Splice coordination resolver
(`_coordinate_splice_positions`, `_find_non_conflicting_splice_position`) -/

/-- An entry of the `existing_splices` working list of
`_coordinate_splice_positions`: `{"center": …, "length": …, "type": …}`. -/
structure ExistingSplice where
  center : ℚ
  length : ℚ
  etype : String
deriving Repr, DecidableEq

/-- `splice.get("length") or max(splice.get("end", 0.0) - splice.get("start", 0.0), 0.0)`:
the stored length, falling back (Python falsiness of `0`) to the clamped
geometric extent. -/
def spliceEffLen (sp : Splice) : ℚ :=
  if sp.sLen = 0 then qmax (sp.sEnd - sp.sStart) 0 else sp.sLen

/-- `(splice.get("start", 0.0) + splice.get("end", 0.0)) / 2`. -/
def spliceCenter (sp : Splice) : ℚ := (sp.sStart + sp.sEnd) / 2

/-- Modelled from the spec: `BeamDetailingService._is_in_prohibited_zone` is
not among the provided sources (only its caller in `segmentation.py` is).
The spec describes the test as the candidate center lying outside all
prohibited zones "with clearance equal to the splice length", which we read
as: the center is rejected iff it falls strictly inside some zone widened by
the clearance on both sides. -/
def isInProhibitedZone (center : ℚ) (zones : List ProhibitedZone)
    (clearance : ℚ) : Bool :=
  zones.any (fun z => z.startM - clearance < center ∧ center < z.endM + clearance)

/-- `offset_candidates = [0.5, 1.0, 1.5, 2.0, 2.5, 3.0]`. -/
def offsetCandidates : List ℚ := [0.5, 1.0, 1.5, 2.0, 2.5, 3.0]

/-- The candidate-acceptance test of the inner loops of
`_find_non_conflicting_splice_position` (bounds, prohibited zones, distance
to every already-accepted splice), in the order the code checks them. -/
def centerOk (spliceLength beamLength : ℚ)
    (existing : List ExistingSplice) (zones : List ProhibitedZone)
    (testCenter : ℚ) : Bool :=
  ¬(testCenter < spliceLength / 2 ∨ beamLength - spliceLength / 2 < testCenter) ∧
  isInProhibitedZone testCenter zones spliceLength = false ∧
  existing.all (fun ex =>
    ¬(|testCenter - ex.center| < qmax spliceLength ex.length * 1.2))

/-- The `for magnitude in offset_candidates: for direction in (1, -1):` double
loop for one value of `attempts`. -/
def magsLoop (ok : ℚ → Bool) (origCenter : ℚ) (attempt : ℕ) :
    List ℚ → Option ℚ
  | [] => none
  | m :: rest =>
    let c1 := origCenter + m * (attempt + 1)
    if ok c1 then some c1
    else
      let c2 := origCenter - m * (attempt + 1)
      if ok c2 then some c2
      else magsLoop ok origCenter attempt rest

/-- The `while attempts < max_attempts` loop of
`_find_non_conflicting_splice_position`, on the remaining attempts. -/
def attemptsLoop (ok : ℚ → Bool) (origCenter : ℚ) :
    ℕ → ℕ → Option ℚ
  | 0, _ => none
  | fuel + 1, attempt =>
    match magsLoop ok origCenter attempt offsetCandidates with
    | some c => some c
    | none => attemptsLoop ok origCenter fuel (attempt + 1)

/-- `_find_non_conflicting_splice_position` (with the default
`max_attempts = 10`). -/
def findNonConflictingSplicePosition (origCenter spliceLength : ℚ)
    (existing : List ExistingSplice) (zones : List ProhibitedZone)
    (beamLength : ℚ) : Option ℚ :=
  if spliceLength ≤ 0 then none
  else attemptsLoop (centerOk spliceLength beamLength existing zones)
    origCenter 10 0

/-- `length = ... ; center = ...; has_conflict = any(|center - c| < 1.5*max)`:
the conflict test of `_coordinate_splice_positions`. -/
def hasConflict (center length : ℚ) (existing : List ExistingSplice) : Bool :=
  existing.any (fun ex => |center - ex.center| < qmax length ex.length * 1.5)

/-- The body of the `for splice in bar.splices` loop of
`_coordinate_splice_positions`: returns the (possibly relocated) splice, the
grown `existing_splices` list, and whether this splice was adjusted. -/
def coordSpliceStep (zones : List ProhibitedZone) (beamLength : ℚ)
    (existing : List ExistingSplice) (sp : Splice) :
    Splice × List ExistingSplice × Bool :=
  let length := spliceEffLen sp
  if length ≤ 0 then (sp, existing, false)
  else
    let originalCenter := spliceCenter sp
    if hasConflict originalCenter length existing = false then
      (sp, existing ++ [⟨originalCenter, length, "bottom"⟩], false)
    else
      match findNonConflictingSplicePosition originalCenter length existing
        zones beamLength with
      | some newCenter =>
        let newStart := qmax 0 (newCenter - length / 2)
        let newEnd := qmin beamLength (newCenter + length / 2)
        let sp' : Splice :=
          { sp with
            sStart := newStart
            sEnd := newEnd
            sLen := newEnd - newStart
            adjusted := true
            originalCenter := some originalCenter }
        let finalCenter := (newStart + newEnd) / 2
        (sp', existing ++ [⟨finalCenter, sp'.sLen, "bottom"⟩], true)
      | none =>
        (sp, existing ++ [⟨originalCenter, length, "bottom"⟩], false)

/-- Thread `coordSpliceStep` over the splices of one bottom bar
(`for splice in bar.splices`), tracking `bar_adjusted`. -/
def coordSplicesGo (zones : List ProhibitedZone) (beamLength : ℚ) :
    List ExistingSplice → List Splice → (List Splice × List ExistingSplice × Bool)
  | existing, [] => ([], existing, false)
  | existing, sp :: rest =>
    let r1 := coordSpliceStep zones beamLength existing sp
    let r2 := coordSplicesGo zones beamLength r1.2.1 rest
    (r1.1 :: r2.1, r2.2.1, r1.2.2 || r2.2.2)

/-- The `Empalmes coordinados` note appended to an adjusted bar. -/
def coordMarker : String := "Empalmes coordinados"

/-- Whether `marker not in note` fails, i.e. the note already contains the
marker. -/
def noteHasMarker (note : String) : Bool :=
  note.toList.tails.any (fun t => coordMarker.toList.isPrefixOf t)

/-- The note update applied when `bar_adjusted` is set. -/
def appendMarker (notes : Option String) : Option String :=
  let note := (notes.getD "").trim
  if noteHasMarker note then notes
  else if note = "" then some coordMarker
  else some (note ++ " | " ++ coordMarker)

/-- The body of the `for bar in bottom_bars` loop of
`_coordinate_splice_positions`. -/
def coordBarStep (zones : List ProhibitedZone) (beamLength : ℚ)
    (existing : List ExistingSplice) (bar : RebarDetail) :
    RebarDetail × List ExistingSplice :=
  match bar.splices with
  | none => (bar, existing)
  | some [] => (bar, existing)
  | some sps =>
    let r := coordSplicesGo zones beamLength existing sps
    let bar' := { bar with splices := some r.1 }
    if r.2.2 then ({ bar' with notes := appendMarker bar.notes }, r.2.1)
    else (bar', r.2.1)

/-- Thread `coordBarStep` over all bottom bars. -/
def coordBarsGo (zones : List ProhibitedZone) (beamLength : ℚ) :
    List ExistingSplice → List RebarDetail → List RebarDetail
  | _, [] => []
  | existing, bar :: rest =>
    let r := coordBarStep zones beamLength existing bar
    r.1 :: coordBarsGo zones beamLength r.2 rest

/-- The initial `existing_splices` list built from the top bars. -/
def existingFromTop (topBars : List RebarDetail) : List ExistingSplice :=
  topBars.flatMap (fun bar =>
    (bar.splices.getD []).map (fun sp =>
      (⟨spliceCenter sp, spliceEffLen sp, "top"⟩ : ExistingSplice)))

/-- `_coordinate_splice_positions`. -/
def coordinateSplicePositions (topBars bottomBars : List RebarDetail)
    (zones : List ProhibitedZone) (beamLength : ℚ) :
    List RebarDetail × List RebarDetail :=
  if bottomBars.isEmpty ∨ beamLength ≤ 0 then (topBars, bottomBars)
  else
    (topBars,
      coordBarsGo zones beamLength (existingFromTop topBars) bottomBars)

/-! ## Lane assignment (`RebarDrawer._assign_lanes`) -/

/-- The fields of `_PreparedBar` that `_assign_lanes` reads: the drawing-space
interval and the dictionary key. -/
structure PSeg where
  key : ℕ
  startX : ℚ
  endX : ℚ
deriving Repr, DecidableEq

/-- The tolerance used by `_assign_lanes`. -/
def laneTol : ℚ := 1/1000

/-- One lane is the list of groups assigned to it, in assignment order; the
`lane_ends[idx]` value of the source is the `end_x` of the lane's last
assigned group. -/
def laneEnd (lane : List PSeg) : ℚ :=
  match lane.getLast? with
  | some g => g.endX
  | none => 0

/-- The `for idx, current_end in enumerate(lane_ends)` scan: place the group
in the first lane whose end is within tolerance of (at most) the group's
start, else report failure. -/
def placeInLane (item : PSeg) : List (List PSeg) → Option (List (List PSeg))
  | [] => none
  | lane :: rest =>
    if laneEnd lane - laneTol ≤ item.startX then some ((lane ++ [item]) :: rest)
    else (placeInLane item rest).map (lane :: ·)

/-- The main loop of `_assign_lanes` over the sorted groups, growing the lane
list. -/
def buildLanes : List PSeg → List (List PSeg) → List (List PSeg)
  | [], lanes => lanes
  | item :: rest, lanes =>
    match placeInLane item lanes with
    | some lanes' => buildLanes rest lanes'
    | none => buildLanes rest (lanes ++ [[item]])

/-- `sorted(segments, key=lambda s: (s.start_x, s.end_x))`. -/
def sortSegs (segments : List PSeg) : List PSeg :=
  segments.mergeSort (fun a b =>
    a.startX < b.startX ∨ (a.startX = b.startX ∧ a.endX ≤ b.endX))

/-- `_assign_lanes`, presented as the lanes it builds; the returned
`assignments` dict maps `item.key` to the index of the lane containing the
item. -/
def assignLanes (segments : List PSeg) : List (List PSeg) :=
  buildLanes (sortSegs segments) []

/-- The `assignments[item.key] = lane_idx` pairs of `_assign_lanes`. -/
def laneAssignments (segments : List PSeg) : List (ℕ × ℕ) :=
  (assignLanes segments).enum.flatMap
    (fun p => p.2.map (fun item => (item.key, p.1)))

/-! ## Specification-side definitions

These definitions follow the wording of the specification (not the code);
they exist to be compared against the code-derived definitions above. -/

/-- The spec's lap-splice length formula:
`max(30·d/1000, development_length(class, d) · lap_factor(commercial_length_m), 0.30)`
with `lap_factor` the table `{6→1.3, 9→1.4, 12→1.5}` (default `1.3`) and
`development_length(class, d) = base(class)·d/1000`, base `{DES:50, DMO:40, DMI:30}`. -/
def lapSpliceLengthSpec (d : ℚ) (t : TipoEstructura) (cl : ℚ) : ℚ :=
  let lapFactor : ℚ :=
    if cl = 6 then 1.3 else if cl = 9 then 1.4 else if cl = 12 then 1.5 else 1.3
  let base : ℚ :=
    match t with
    | .DES => 50
    | .DMO => 40
    | .DMI => 30
  max (max (30 * d / 1000) (base * d / 1000 * lapFactor)) 0.3

/-- The claim's formula for the bottom strategy's first-segment target:
`max(min(total·(0.4 + ratio·0.5), max·0.8 if ratio ≈ 0 else max), 1.5·splice)`,
capped at the total length, with the ratio clamped to `[0, 0.6]` and
"approximately 0" read as the code's own branch criterion `ratio ≤ 1e-3`. -/
def firstSegmentTargetSpec (totalLength maxLength spliceLength
    spliceOffsetRatio : ℚ) : ℚ :=
  let r := max 0 (min spliceOffsetRatio 0.6)
  min
    (max
      (min (totalLength * (0.4 + r * 0.5))
        (if r ≤ tol then maxLength * 0.8 else maxLength))
      (1.5 * spliceLength))
    totalLength

/-- The flattened candidate sequence the claim describes for the coordination
search: attempt rounds `0..9`, magnitudes `{0.5,…,3.0}` scaled by
`(attempt+1)`, `+` direction before `−`. -/
def candidateList (origCenter : ℚ) : List ℚ :=
  (List.range' 0 10).flatMap (fun attempt =>
    offsetCandidates.flatMap (fun m =>
      [origCenter + m * (attempt + 1), origCenter - m * (attempt + 1)]))

/-- The claim's description of one coordination decision: a positive-length
splice conflicting with a recorded center (within `1.5×max` of it) is moved
to the first acceptable candidate of `candidateList`, otherwise kept. -/
def coordSpliceStepSpec (zones : List ProhibitedZone) (beamLength : ℚ)
    (existing : List ExistingSplice) (sp : Splice) :
    Splice × List ExistingSplice × Bool :=
  let length := spliceEffLen sp
  if length ≤ 0 then (sp, existing, false)
  else
    let originalCenter := spliceCenter sp
    if (existing.any (fun ex =>
        |originalCenter - ex.center| < qmax length ex.length * 1.5)) = false then
      (sp, existing ++ [⟨originalCenter, length, "bottom"⟩], false)
    else
      match (candidateList originalCenter).find?
          (centerOk length beamLength existing zones) with
      | some newCenter =>
        let newStart := qmax 0 (newCenter - length / 2)
        let newEnd := qmin beamLength (newCenter + length / 2)
        let sp' : Splice :=
          { sp with
            sStart := newStart
            sEnd := newEnd
            sLen := newEnd - newStart
            adjusted := true
            originalCenter := some originalCenter }
        (sp', existing ++ [⟨(newStart + newEnd) / 2, sp'.sLen, "bottom"⟩], true)
      | none =>
        (sp, existing ++ [⟨originalCenter, length, "bottom"⟩], false)

/-! ## Structural predicates used by the invariant claims -/

/-- The link between two production-consecutive segments `a`, `b` and the
joint recorded between them: the joint is exactly the overlap
`[b.start, a.end]`, that overlap has positive length, and segment geometry is
ordered (`a` starts and ends no later than `b`). -/
def JointLink (a b : RebarDetail) (j : Splice) : Prop :=
  j.sStart = b.startM ∧ j.sEnd = a.endM ∧ j.sLen = a.endM - b.startM ∧
  a.startM ≤ b.startM ∧ b.startM < a.endM ∧ a.endM ≤ b.endM

/-- `ChainSegs bar a segs joints`: starting from segment `a`, the remaining
segments and joints alternate correctly and the final segment ends exactly at
`bar.end`; every intermediate end stays inside the bar. -/
def ChainSegs (bar : RebarDetail) : RebarDetail → List RebarDetail → List Splice → Prop
  | a, [], [] => a.endM = bar.endM
  | a, b :: segs, j :: joints =>
    JointLink a b j ∧ a.endM ≤ bar.endM ∧ ChainSegs bar b segs joints
  | _, _, _ => False

/-- The tiling property claimed for the output of one strategy run: the
production list is nonempty, anchored at `bar.start`, chained through the
recorded joints (consecutive overlaps are exactly the joints, with positive
length), its start coordinates are already sorted, its last segment ends at
`bar.end`, and the union of the segment intervals is exactly
`[bar.start, bar.end]`. -/
def TilesBar (bar : RebarDetail) (out : LoopOut) : Prop :=
  (∃ hd tl, out.segs = hd :: tl ∧ hd.startM = bar.startM ∧
    bar.startM < hd.endM ∧ ChainSegs bar hd tl out.joints) ∧
  List.Chain' (fun a b => a.startM ≤ b.startM) out.segs ∧
  (∃ lst, out.segs.getLast? = some lst ∧ lst.endM = bar.endM) ∧
  out.joints.length + 1 = out.segs.length ∧
  (∀ j ∈ out.joints, 0 < j.sLen) ∧
  (∀ x : ℚ, (bar.startM ≤ x ∧ x ≤ bar.endM) ↔
    ∃ seg ∈ out.segs, seg.startM ≤ x ∧ x ≤ seg.endM)

/-- Frame outcome of coordination on one splice: either untouched, or
relocated with its extent preserved (the new `end − start` equals the
original effective length) and the bookkeeping fields set. -/
def SpliceOutcome (orig new : Splice) : Prop :=
  new = orig ∨
  (new.adjusted = true ∧ new.sEnd - new.sStart = spliceEffLen orig ∧
    new.sLen = new.sEnd - new.sStart ∧ new.sType = orig.sType ∧
    new.sPos = orig.sPos ∧ new.originalCenter = some (spliceCenter orig))

/-- Frame outcome of coordination on one bottom bar: all geometric fields
unchanged, and the splice list related pointwise by `SpliceOutcome`. -/
def BarOutcome (orig new : RebarDetail) : Prop :=
  new.id = orig.id ∧ new.diameter = orig.diameter ∧
  new.position = orig.position ∧ new.rtype = orig.rtype ∧
  new.lengthM = orig.lengthM ∧ new.startM = orig.startM ∧
  new.endM = orig.endM ∧ new.hookType = orig.hookType ∧
  new.quantity = orig.quantity ∧
  new.developmentLengthM = orig.developmentLengthM ∧
  ((orig.splices = none ∧ new.splices = none) ∨
    ∃ sps sps', orig.splices = some sps ∧ new.splices = some sps' ∧
      List.Forall₂ SpliceOutcome sps sps')

/-! ## Concrete fixtures for the scenario claims, counterexamples and
witnesses -/

/-- A top-position test bar `[0, 14]` (Scenario B). -/
def barB : RebarDetail :=
  ⟨"N5-T1", "#5", "top", "continuous", 14, 0, 14, none, none, 2, 0.6, none⟩

/-- Scenario B parameters: `max_length = 9`, `splice_length = 0.9`, no hooks. -/
def paramsB : SegParams := ⟨9, 0.9, 0, 0.05, 14, 0.05⟩

/-- A top bar `[0, 20]` used to refute the splice minimum-length claim. -/
def barC5 : RebarDetail :=
  ⟨"N5-T2", "#5", "top", "continuous", 20, 0, 20, none, none, 2, 0.6, none⟩

/-- Parameters with `splice_length = 7 < max_length = 9`; the 60 % first-piece
rule then produces a first joint clamped at the bar start. -/
def paramsC5 : SegParams := ⟨9, 7, 0, 0.05, 20, 0.05⟩

/-- A top bar `[0, 300]` long enough that segmentation needs more than 100
pieces (progress is `max − splice = 2.5 m` per piece). -/
def barC1 : RebarDetail :=
  ⟨"N5-T3", "#5", "top", "continuous", 300, 0, 300, none, none, 2, 0.6, none⟩

/-- Parameters for the `barC1` run: `max_length = 3`, `splice_length = 0.5`. -/
def paramsC1 : SegParams := ⟨3, 0.5, 0, 0.05, 300, 0.05⟩

/-- A bottom bar `[0, 5]` for the prohibited-zone counterexample run. -/
def barCZ : RebarDetail :=
  ⟨"N5-B4", "#5", "bottom", "continuous", 5, 0, 5, none, none, 2, 0.6, none⟩

/-- Parameters for the `barCZ` run: the maximum is a tolerance sliver below
the bar length, so the first-piece candidate lands just under
`bar.end - tolerance` and the safe-position scan can reach back within the
1e-6 stop margin of the bar end. -/
def paramsCZ : SegParams := ⟨4.9989995, 3.999999, 0, 0.05, 5, 0.05⟩

/-- The prohibited zone of the `barCZ` run: it blocks every scanned safe
center except the last one, `4.999999 = 5 - 1e-6`. -/
def zoneCZ : ProhibitedZone := ⟨2.9, 2.9999995, "col"⟩

/-- Scenario D: the top splice, centered at `5.0`, length `0.75`. -/
def spliceDTop : Splice :=
  ⟨4.625, 5.375, 0.75, "lap_splice_class_b", "top", false, none⟩

/-- Scenario D: the bottom splice, centered at `5.1`, length `0.75`. -/
def spliceDBot : Splice :=
  ⟨4.725, 5.475, 0.75, "lap_splice_class_b", "bottom", false, none⟩

/-- Scenario D: the bar carrying a given splice. -/
def barD (pos : String) (sp : Splice) : RebarDetail :=
  ⟨"D1", "#5", pos, "continuous", 12, 0, 12, none, some [sp], 1, 0.6, none⟩

/-! # Theorems -/

/-- **C2.** The lap-splice length function returns
`max(30·d/1000, base(class)·d/1000·factor(commercial_length), 0.30)` with
`factor = {6→1.3, 9→1.4, 12→1.5}` (default 1.3) and
`base = {DES→50, DMO→40, DMI→30}`; for diameter 20 mm, class DES and
commercial length 12 m it returns 1.5 m, and for a beam of total length
12.175 m the splice-location computation produces exactly the single splice
interval `[10.5, 12.0]`. -/
theorem c2_lap_splice_length :
    (∀ (d : ℚ) (t : TipoEstructura) (cl : ℚ),
      calcularLongitudTraslapo d t cl = lapSpliceLengthSpec d t cl) ∧
    (factorTraslapo 6 = 1.3 ∧ factorTraslapo 9 = 1.4 ∧
      factorTraslapo 12 = 1.5 ∧
      ∀ cl : ℚ, cl ≠ 6 → cl ≠ 9 → cl ≠ 12 → factorTraslapo cl = 1.3) ∧
    (longitudDesarrolloBase .DES = 50 ∧ longitudDesarrolloBase .DMO = 40 ∧
      longitudDesarrolloBase .DMI = 30) ∧
    calcularLongitudTraslapo 20 .DES 12 = 1.5 ∧
    calcularUbicacionTraslapos 12.175 12 20 .DES = [(10.5, 12.0)] := by
  refine ⟨?_, ⟨by norm_num [factorTraslapo], by norm_num [factorTraslapo],
      by norm_num [factorTraslapo], ?_⟩, ⟨rfl, rfl, rfl⟩,
      by with_unfolding_all decide, by with_unfolding_all decide⟩
  · intro d t cl
    cases t <;>
      simp [calcularLongitudTraslapo, lapSpliceLengthSpec, factorTraslapo,
        longitudDesarrolloBase, longitudMinTraslapo, qmax_eq_max]
  · intro cl h6 h9 h12
    simp [factorTraslapo, h6, h9, h12]

/-- **C2 witness.** The default lap factor branch at the concrete
non-commercial length 7 m. -/
theorem c2_lap_splice_length_witness :
    (7 : ℚ) ≠ 6 ∧ (7 : ℚ) ≠ 9 ∧ (7 : ℚ) ≠ 12 ∧ factorTraslapo 7 = 1.3 :=
  ⟨by norm_num, by norm_num, by norm_num,
    c2_lap_splice_length.2.1.2.2.2 7 (by norm_num) (by norm_num) (by norm_num)⟩

/-- **C4.** Whenever `max_length ≤ 0`, or `bar.length ≤ max_length`, or
`splice_length ≥ max_length`, the segmentation entry point returns the bar
unsplit, and in the splice-length-too-large case (reached when the earlier
guards do not fire) it emits a warning. -/
theorem c4_entry_guards (P : SegParams) (bar : RebarDetail)
    (zones : List ProhibitedZone) (preferPrev : Bool) (ratio : ℚ)
    (isBottom : Bool)
    (h : P.maxLength ≤ 0 ∨ bar.lengthM ≤ P.maxLength ∨
      P.maxLength ≤ P.spliceLength) :
    (splitBarByMaxLength P bar zones preferPrev ratio isBottom).1 = [bar] ∧
    (¬(P.maxLength ≤ 0 ∨ bar.lengthM ≤ P.maxLength) →
      (splitBarByMaxLength P bar zones preferPrev ratio isBottom).2 =
        [SegWarning.spliceTooLarge]) := by
  unfold splitBarByMaxLength
  rcases h with h | h | h
  · simp [h]
  · simp [h]
  · by_cases h1 : P.maxLength ≤ 0 ∨ bar.lengthM ≤ P.maxLength
    · simp [if_pos h1, h1]
    · simp [if_neg h1, if_pos (Or.inr h), h1]

/-- **C4 witness.** A concrete bar of length 14 with `max_length = 9` and
`splice_length = 10 ≥ 9`: unsplit result plus the warning. -/
theorem c4_entry_guards_witness :
    ((9 : ℚ) ≤ 0 ∨ (14 : ℚ) ≤ 9 ∨ (9 : ℚ) ≤ 10) ∧
    (splitBarByMaxLength ⟨9, 10, 0, 0.05, 14, 0.05⟩ barB [] false 0 false).1 =
      [barB] ∧
    (splitBarByMaxLength ⟨9, 10, 0, 0.05, 14, 0.05⟩ barB [] false 0 false).2 =
      [SegWarning.spliceTooLarge] := by
  have h := c4_entry_guards ⟨9, 10, 0, 0.05, 14, 0.05⟩ barB [] false 0 false
    (by norm_num)
  exact ⟨by norm_num, h.1, h.2 (by norm_num [barB])⟩

/-- **C7 counterexample.** At `splice_offset_ratio = 0`, beam total length
10 m, `max_length = 9` and `splice_length = 1`, the code's first-segment
target is `min(0.45·10, 0.8·9) = 4.5`, while the claim's formula gives
`min(0.4·10, 0.8·9) = 4.0`. -/
theorem c7_first_segment_target_counterexample :
    firstSegmentTarget 10 9 1 0 = 4.5 ∧ firstSegmentTargetSpec 10 9 1 0 = 4 ∧
    firstSegmentTarget 10 9 1 0 ≠ firstSegmentTargetSpec 10 9 1 0 := by
  norm_num [firstSegmentTarget, firstSegmentTargetSpec, qmax, qmin, tol]

/-- **C7 (amended).** With ratio clamped to `[0, 0.6]`, the first-segment
target is `max(min(total·(0.4 + ratio·0.5), max_length), 1.5·splice)` capped
at the total length when the clamped ratio exceeds `1e-3`, and
`max(min(total·0.45, max_length·0.8), 1.5·splice)` capped at the total length
when it does not; and the bottom strategy runs its loop with exactly this
target. -/
theorem c7_first_segment_target :
    (∀ totalLength maxLength spliceLength r : ℚ,
      firstSegmentTarget totalLength maxLength spliceLength r =
        min
          (max
            (if tol < max 0 (min r 0.6) then
              min (totalLength * (0.4 + max 0 (min r 0.6) * 0.5)) maxLength
            else min (totalLength * 0.45) (maxLength * 0.8))
            (spliceLength * 1.5))
          totalLength) ∧
    (∀ (P : SegParams) (bar : RebarDetail) (zones : List ProhibitedZone)
      (ratio : ℚ),
      splitBottomBarCore P bar zones ratio =
        bottomLoop P bar zones
          (firstSegmentTarget (qmax (bar.endM - bar.startM) 0) P.maxLength
            P.spliceLength ratio)
          (hasStartHookOf P bar) (hasEndHookOf P bar) 100 bar.startM 1) := by
  constructor
  · intro totalLength maxLength spliceLength r
    simp only [firstSegmentTarget, qmax_eq_max, qmin_eq_min]
  · intro P bar zones ratio
    rfl

/-- **C6 counterexample.** Scenario B claims the 14 m bar's first segment is
shortened to 60 % of the usable maximum because `14 > 1.8×9`; in fact
`1.8×9 = 16.2 > 14`, the rule does not fire, and the first segment takes the
full maximum length 9 m. -/
theorem c6_scenario_b_counterexample :
    ((splitTopBar paramsB barB [] false).head?.map (fun g => g.lengthM)) =
      some 9 ∧
    ¬(paramsB.maxLength * 1.8 < (14 : ℚ)) ∧
    (9 : ℚ) ≠ 0.6 * 9 := by
  refine ⟨by with_unfolding_all decide, by norm_num [paramsB], by norm_num⟩

/-- **C6 (amended).** Scenario B, as the code computes it: bar length 14 m,
`max_length` 9 m, `splice_length` 0.9 m, no prohibited zones → exactly 2
segments `[0, 9]` and `[8.1, 14]` whose union covers `[0, 14]` exactly, with
the single splice `[8.1, 9]` of length 0.9 m; the first segment takes the
full usable maximum 9 m because the remaining length 14 does **not** exceed
`1.8×9 = 16.2` (the 60 % shortening applies only above that threshold). -/
theorem c6_scenario_b :
    (splitTopBarCore paramsB barB [] false).segs.map
      (fun g => (g.startM, g.endM)) = [(0, 9), (8.1, 14)] ∧
    (splitTopBarCore paramsB barB [] false).joints =
      [⟨8.1, 9, 0.9, "lap_splice_class_b", "top", false, none⟩] ∧
    (splitTopBarCore paramsB barB [] false).capped = false ∧
    (splitTopBar paramsB barB [] false).length = 2 ∧
    (14 : ℚ) ≤ paramsB.maxLength * 1.8 ∧
    (∀ x : ℚ, (0 ≤ x ∧ x ≤ 14) ↔
      ((0 ≤ x ∧ x ≤ 9) ∨ ((8.1 : ℚ) ≤ x ∧ x ≤ 14))) := by
  refine ⟨by with_unfolding_all decide, by with_unfolding_all decide,
    by with_unfolding_all decide, by with_unfolding_all decide,
    by norm_num [paramsB], ?_⟩
  intro x
  constructor
  · rintro ⟨h0, h14⟩
    by_cases h9 : x ≤ 9
    · exact Or.inl ⟨h0, h9⟩
    · exact Or.inr ⟨by linarith, h14⟩
  · rintro (⟨h0, h9⟩ | ⟨h8, h14⟩)
    · exact ⟨h0, by linarith⟩
    · exact ⟨by linarith, h14⟩

/-! ## Lane non-overlap (C8) -/

/-- The invariant relating two groups assigned to the same lane, in
assignment order: the later one starts (within tolerance) after the earlier
one ends, and starts are sorted. -/
def laneRel (a b : PSeg) : Prop :=
  a.startX ≤ b.startX ∧ a.endX - laneTol ≤ b.startX

theorem pairwise_last_rel :
    ∀ (lane : List PSeg), lane.Pairwise laneRel →
      ∀ a ∈ lane, ∃ x, lane.getLast? = some x ∧ (a = x ∨ laneRel a x)
  | [], _, a, ha => absurd ha (List.not_mem_nil a)
  | [b], _, a, ha => ⟨b, rfl, Or.inl (by simpa using ha)⟩
  | b :: c :: rest, h, a, ha => by
    have h1 : (c :: rest).Pairwise laneRel := (List.pairwise_cons.mp h).2
    have hb : ∀ y ∈ c :: rest, laneRel b y := (List.pairwise_cons.mp h).1
    rcases List.mem_cons.mp ha with rfl | ha'
    · obtain ⟨x, hx, -⟩ := pairwise_last_rel (c :: rest) h1 c (by simp)
      refine ⟨x, by simpa using hx,
        Or.inr (hb x (List.mem_of_mem_getLast? (by simp [hx])))⟩
    · obtain ⟨x, hx, hax⟩ := pairwise_last_rel (c :: rest) h1 a ha'
      exact ⟨x, by simpa using hx, hax⟩

theorem placeInLane_inv (item : PSeg) :
    ∀ (lanes lanes' : List (List PSeg)),
      placeInLane item lanes = some lanes' →
      (∀ lane ∈ lanes, lane.Pairwise laneRel) →
      (∀ lane ∈ lanes, ∀ a ∈ lane, a.startX ≤ item.startX) →
      (∀ lane ∈ lanes', lane.Pairwise laneRel) ∧
      (∀ lane ∈ lanes', ∀ a ∈ lane, (∃ l0 ∈ lanes, a ∈ l0) ∨ a = item)
  | [], _, h => by cases h
  | lane :: rest, lanes', h => by
    intro hpw hstart
    by_cases hc : laneEnd lane - laneTol ≤ item.startX
    · rw [placeInLane, if_pos hc] at h
      obtain rfl : (lane ++ [item]) :: rest = lanes' := Option.some.inj h
      have hlane : lane.Pairwise laneRel := hpw lane (by simp)
      have happ : (lane ++ [item]).Pairwise laneRel := by
        refine List.pairwise_append.mpr ⟨hlane, by simp, ?_⟩
        intro a ha b hb
        have hbi : b = item := by simpa using hb
        rw [hbi]
        obtain ⟨x, hx, hax⟩ := pairwise_last_rel lane hlane a ha
        have hle : laneEnd lane = x.endX := by simp [laneEnd, hx]
        refine ⟨hstart lane (by simp) a ha, ?_⟩
        rcases hax with rfl | hax
        · calc a.endX - laneTol = laneEnd lane - laneTol := by rw [hle]
            _ ≤ item.startX := hc
        · calc a.endX - laneTol ≤ x.startX := hax.2
            _ ≤ item.startX :=
              hstart lane (by simp) x (List.mem_of_mem_getLast? (by simp [hx]))
      constructor
      · intro l hl
        rcases List.mem_cons.mp hl with rfl | hl'
        · exact happ
        · exact hpw l (by simp [hl'])
      · intro l hl a ha
        rcases List.mem_cons.mp hl with rfl | hl'
        · rcases List.mem_append.mp ha with ha' | ha'
          · exact Or.inl ⟨lane, by simp, ha'⟩
          · exact Or.inr (by simpa using ha')
        · exact Or.inl ⟨l, by simp [hl'], ha⟩
    · rw [placeInLane, if_neg hc] at h
      obtain ⟨rest', hrest', rfl⟩ := Option.map_eq_some'.mp h
      have hr := placeInLane_inv item rest rest' hrest'
        (fun l hl => hpw l (by simp [hl]))
        (fun l hl => hstart l (by simp [hl]))
      constructor
      · intro l hl
        rcases List.mem_cons.mp hl with rfl | hl'
        · exact hpw l (by simp)
        · exact hr.1 l hl'
      · intro l hl a ha
        rcases List.mem_cons.mp hl with rfl | hl'
        · exact Or.inl ⟨l, by simp, ha⟩
        · rcases hr.2 l hl' a ha with ⟨l0, hl0, ha0⟩ | rfl
          · exact Or.inl ⟨l0, by simp [hl0], ha0⟩
          · exact Or.inr rfl

theorem buildLanes_inv :
    ∀ (l : List PSeg) (lanes : List (List PSeg)),
      l.Pairwise (fun a b => a.startX ≤ b.startX) →
      (∀ lane ∈ lanes, lane.Pairwise laneRel) →
      (∀ lane ∈ lanes, ∀ a ∈ lane, ∀ y ∈ l, a.startX ≤ y.startX) →
      ∀ lane ∈ buildLanes l lanes, lane.Pairwise laneRel
  | [], lanes, _, hpw, _ => by simpa [buildLanes] using hpw
  | item :: rest, lanes, hsort, hpw, hcross => by
    have hsort' : rest.Pairwise (fun a b => a.startX ≤ b.startX) :=
      (List.pairwise_cons.mp hsort).2
    have hitem : ∀ y ∈ rest, item.startX ≤ y.startX :=
      (List.pairwise_cons.mp hsort).1
    cases hpl : placeInLane item lanes with
    | some lanes' =>
      obtain ⟨hpw', hmem'⟩ := placeInLane_inv item lanes lanes' hpl hpw
        (fun lane hl a ha => hcross lane hl a ha item (by simp))
      have hcross' :
          ∀ lane ∈ lanes', ∀ a ∈ lane, ∀ y ∈ rest, a.startX ≤ y.startX := by
        intro lane hl a ha y hy
        rcases hmem' lane hl a ha with ⟨l0, hl0, ha0⟩ | rfl
        · exact hcross l0 hl0 a ha0 y (by simp [hy])
        · exact hitem y hy
      have hres := buildLanes_inv rest lanes' hsort' hpw' hcross'
      simpa [buildLanes, hpl] using hres
    | none =>
      have hpw' : ∀ lane ∈ lanes ++ [[item]], lane.Pairwise laneRel := by
        intro lane hl
        rcases List.mem_append.mp hl with hl' | hl'
        · exact hpw lane hl'
        · obtain rfl : lane = [item] := by simpa using hl'
          simp
      have hcross' : ∀ lane ∈ lanes ++ [[item]], ∀ a ∈ lane, ∀ y ∈ rest,
          a.startX ≤ y.startX := by
        intro lane hl a ha y hy
        rcases List.mem_append.mp hl with hl' | hl'
        · exact hcross lane hl' a ha y (by simp [hy])
        · obtain rfl : lane = [item] := by simpa using hl'
          obtain rfl : a = item := by simpa using ha
          exact hitem y hy
      have hres := buildLanes_inv rest (lanes ++ [[item]]) hsort' hpw' hcross'
      simpa [buildLanes, hpl] using hres

theorem sortSegs_sorted (segments : List PSeg) :
    (sortSegs segments).Pairwise (fun a b => a.startX ≤ b.startX) := by
  have h := @List.sorted_mergeSort PSeg
    (fun a b : PSeg =>
      decide (a.startX < b.startX ∨ (a.startX = b.startX ∧ a.endX ≤ b.endX)))
    (fun a b c hab hbc => by
      simp only [decide_eq_true_eq] at *
      rcases hab with h1 | ⟨h1, h1'⟩ <;> rcases hbc with h2 | ⟨h2, h2'⟩
      · exact Or.inl (h1.trans h2)
      · exact Or.inl (h2 ▸ h1)
      · exact Or.inl (h1 ▸ h2)
      · exact Or.inr ⟨h1.trans h2, h1'.trans h2'⟩)
    (fun a b => by
      simp only [Bool.or_eq_true, decide_eq_true_eq]
      rcases lt_trichotomy a.startX b.startX with h | h | h
      · exact Or.inl (Or.inl h)
      · rcases le_total a.endX b.endX with h' | h'
        · exact Or.inl (Or.inr ⟨h, h'⟩)
        · exact Or.inr (Or.inr ⟨h.symm, h'⟩)
      · exact Or.inr (Or.inl h))
    segments
  refine h.imp ?_
  intro a b hab
  simp only [decide_eq_true_eq] at hab
  rcases hab with h1 | ⟨h1, -⟩
  · exact le_of_lt h1
  · exact le_of_eq h1

/-- **C8.** After greedy lane assignment, any two groups in the same lane
have x-intervals that do not overlap beyond the tolerance: the overlap length
`min(end, end) − max(start, start)` of any two groups sharing a lane is at
most `1e-3`. -/
theorem c8_lane_no_overlap (segments : List PSeg) :
    ∀ lane ∈ assignLanes segments,
      lane.Pairwise (fun a b =>
        min a.endX b.endX - max a.startX b.startX ≤ laneTol) := by
  intro lane hl
  have h := buildLanes_inv (sortSegs segments) [] (sortSegs_sorted segments)
    (by simp) (by simp) lane (by simpa [assignLanes] using hl)
  refine h.imp ?_
  intro a b hab
  have h1 : min a.endX b.endX ≤ a.endX := min_le_left _ _
  have h2 : b.startX ≤ max a.startX b.startX := le_max_right _ _
  have h3 := hab.2
  linarith

/-- **C8 witness.** A concrete lane assignment: four groups, the first lane
receives the groups `[0,5]`, `[5,9]`, `[9,12]`, and its pairwise overlaps are
within tolerance. -/
theorem c8_lane_no_overlap_witness :
    [(⟨1, 0, 5⟩ : PSeg), ⟨3, 5, 9⟩, ⟨4, 9, 12⟩] ∈
      assignLanes [⟨1, 0, 5⟩, ⟨2, 3, 8⟩, ⟨3, 5, 9⟩, ⟨4, 9, 12⟩] ∧
    ([(⟨1, 0, 5⟩ : PSeg), ⟨3, 5, 9⟩, ⟨4, 9, 12⟩]).Pairwise (fun a b =>
      min a.endX b.endX - max a.startX b.startX ≤ laneTol) := by
  have hmem : [(⟨1, 0, 5⟩ : PSeg), ⟨3, 5, 9⟩, ⟨4, 9, 12⟩] ∈
      assignLanes [⟨1, 0, 5⟩, ⟨2, 3, 8⟩, ⟨3, 5, 9⟩, ⟨4, 9, 12⟩] := by
    with_unfolding_all decide
  exact ⟨hmem,
    c8_lane_no_overlap [⟨1, 0, 5⟩, ⟨2, 3, 8⟩, ⟨3, 5, 9⟩, ⟨4, 9, 12⟩] _ hmem⟩

/-! ## Termination bounds (C9) -/

theorem topLoop_count_le (P : SegParams) (bar : RebarDetail)
    (zones : List ProhibitedZone) (pp hsh heh : Bool) :
    ∀ fuel s piece, (topLoop P bar zones pp hsh heh fuel s piece).count ≤ fuel := by
  intro fuel
  induction fuel with
  | zero =>
    intro s piece
    rw [topLoop]
    split <;> simp
  | succ n ih =>
    intro s piece
    rw [topLoop]
    split
    · cases h : topStep P bar zones pp hsh heh s piece with
      | halt segs joints => exact Nat.succ_le_succ (Nat.zero_le n)
      | cont seg joint next => exact Nat.succ_le_succ (ih _ _)
    · exact Nat.zero_le _

theorem bottomLoop_count_le (P : SegParams) (bar : RebarDetail)
    (zones : List ProhibitedZone) (ft : ℚ) (hsh heh : Bool) :
    ∀ fuel s piece,
      (bottomLoop P bar zones ft hsh heh fuel s piece).count ≤ fuel := by
  intro fuel
  induction fuel with
  | zero =>
    intro s piece
    rw [bottomLoop]
    split <;> simp
  | succ n ih =>
    intro s piece
    rw [bottomLoop]
    split
    · cases h : bottomStep P bar zones ft hsh heh s piece with
      | halt segs joints => exact Nat.succ_le_succ (Nat.zero_le n)
      | cont seg joint next => exact Nat.succ_le_succ (ih _ _)
    · exact Nat.zero_le _

theorem adjustGo_count_le (currentStart candidateEnd spliceLength : ℚ)
    (zones : List ProhibitedZone) :
    ∀ n a, (adjustGo currentStart candidateEnd spliceLength zones n a).2 ≤ n := by
  intro n
  induction n with
  | zero => intro a; simp [adjustGo]
  | succ m ih =>
    intro a
    rw [adjustGo]
    dsimp only
    split <;>
    · split
      · exact Nat.succ_le_succ (Nat.zero_le m)
      · split
        · exact Nat.succ_le_succ (Nat.zero_le m)
        · split
          · exact Nat.succ_le_succ (Nat.zero_le m)
          · exact Nat.succ_le_succ (ih _)

/-- **C9.** All detailing loops are total functions of their fuel with the
caps the code declares: each strategy loop executes at most its fuel's worth
of bodies (100 at the entry points), the zone backward-shift runs at most 20
attempts, and the coordination search examines exactly the
10 rounds × 6 magnitudes × 2 directions = 120 candidates. -/
theorem c9_termination_bounds :
    (∀ (P : SegParams) (bar : RebarDetail) (zones : List ProhibitedZone)
      (pp hsh heh : Bool) (fuel : ℕ) (s : ℚ) (piece : ℕ),
      (topLoop P bar zones pp hsh heh fuel s piece).count ≤ fuel) ∧
    (∀ (P : SegParams) (bar : RebarDetail) (zones : List ProhibitedZone)
      (ft : ℚ) (hsh heh : Bool) (fuel : ℕ) (s : ℚ) (piece : ℕ),
      (bottomLoop P bar zones ft hsh heh fuel s piece).count ≤ fuel) ∧
    (∀ (P : SegParams) (bar : RebarDetail) (zones : List ProhibitedZone)
      (pp : Bool), (splitTopBarCore P bar zones pp).count ≤ 100) ∧
    (∀ (P : SegParams) (bar : RebarDetail) (zones : List ProhibitedZone)
      (r : ℚ), (splitBottomBarCore P bar zones r).count ≤ 100) ∧
    (∀ (currentStart candidateEnd spliceLength : ℚ)
      (zones : List ProhibitedZone) (n : ℕ) (a : ℚ),
      (adjustGo currentStart candidateEnd spliceLength zones n a).2 ≤ n) ∧
    (∀ c : ℚ, (candidateList c).length = 120) := by
  refine ⟨fun P bar zones pp hsh heh => topLoop_count_le P bar zones pp hsh heh,
    fun P bar zones ft hsh heh => bottomLoop_count_le P bar zones ft hsh heh,
    fun P bar zones pp => topLoop_count_le P bar zones pp _ _ 100 _ _,
    fun P bar zones r => bottomLoop_count_le P bar zones _ _ _ 100 _ _,
    fun a b c zones => adjustGo_count_le a b c zones, ?_⟩
  intro c
  have hr : List.range' 0 10 = [0, 1, 2, 3, 4, 5, 6, 7, 8, 9] := rfl
  simp [candidateList, offsetCandidates, hr]

/-! ## The coordination search as a first-match scan (C3) -/

theorem magsLoop_eq_find (ok : ℚ → Bool) (orig : ℚ) (attempt : ℕ) :
    ∀ ms : List ℚ, magsLoop ok orig attempt ms =
      (ms.flatMap (fun m =>
        [orig + m * (attempt + 1), orig - m * (attempt + 1)])).find? ok
  | [] => rfl
  | m :: rest => by
    rw [magsLoop]
    simp only [List.flatMap_cons, List.cons_append]
    by_cases h1 : ok (orig + m * (attempt + 1)) = true
    · simp [h1, List.find?_cons]
    · by_cases h2 : ok (orig - m * (attempt + 1)) = true
      · simp [h1, h2, List.find?_cons]
      · simp [h1, h2, List.find?_cons, magsLoop_eq_find ok orig attempt rest]

theorem attemptsLoop_eq_find (ok : ℚ → Bool) (orig : ℚ) :
    ∀ fuel attempt : ℕ, attemptsLoop ok orig fuel attempt =
      ((List.range' attempt fuel).flatMap (fun a =>
        offsetCandidates.flatMap (fun m =>
          [orig + m * (a + 1), orig - m * (a + 1)]))).find? ok := by
  intro fuel
  induction fuel with
  | zero => intro attempt; rfl
  | succ n ih =>
    intro attempt
    rw [attemptsLoop, magsLoop_eq_find, List.range'_succ, List.flatMap_cons,
      List.find?_append]
    cases h : (offsetCandidates.flatMap fun m =>
        [orig + m * (↑attempt + 1), orig - m * (↑attempt + 1)]).find? ok with
    | some c => simp [h]
    | none => simp [h, ih (attempt + 1)]

/-- The bounded search of `_find_non_conflicting_splice_position` returns the
first acceptable member of the flattened candidate list. -/
theorem findNonConflicting_eq_find (orig L : ℚ)
    (existing : List ExistingSplice) (zones : List ProhibitedZone) (B : ℚ) :
    findNonConflictingSplicePosition orig L existing zones B =
      if L ≤ 0 then none
      else (candidateList orig).find? (centerOk L B existing zones) := by
  rw [findNonConflictingSplicePosition]
  split
  · rfl
  · rw [attemptsLoop_eq_find]
    rfl

/-- **C3.** Coordination treats a bottom splice of positive length as
conflicting iff some recorded center is within `1.5×max` of its own; on
conflict it relocates to the first candidate of the round-0..9 ×
six-magnitude × two-direction sequence that passes the bounds, zone and
`1.2×max`-distance checks, and keeps the original position when none passes
— and on Scenario D (top splice centered 5.0, bottom centered 5.1, both of
length 0.75, beam 12 m, no zones) it relocates the bottom splice to center
6.1, at distance ≥ 1.2×0.75 from 5.0. -/
theorem c3_coordination_search :
    (∀ (zones : List ProhibitedZone) (B : ℚ) (existing : List ExistingSplice)
      (sp : Splice),
      coordSpliceStep zones B existing sp = coordSpliceStepSpec zones B existing sp) ∧
    (∀ (orig L : ℚ) (existing : List ExistingSplice)
      (zones : List ProhibitedZone) (B : ℚ),
      findNonConflictingSplicePosition orig L existing zones B =
        if L ≤ 0 then none
        else (candidateList orig).find? (centerOk L B existing zones)) ∧
    ((coordinateSplicePositions [barD "top" spliceDTop]
        [barD "bottom" spliceDBot] [] 12).2.head?.bind
          (fun b => b.splices.map (fun l => l.map spliceCenter))) = some [6.1] ∧
    (1.2 * 0.75 : ℚ) ≤ |(6.1 : ℚ) - 5.0| := by
  refine ⟨?_, findNonConflicting_eq_find, by with_unfolding_all decide, ?_⟩
  · intro zones B existing sp
    simp only [coordSpliceStep, coordSpliceStepSpec, hasConflict,
      findNonConflicting_eq_find]
    split
    · rfl
    · rename_i hlen
      simp only [if_neg hlen]
  · rw [show ((6.1 : ℚ) - 5.0) = 1.1 by norm_num,
      abs_of_pos (by norm_num : (0 : ℚ) < 1.1)]
    norm_num

/-! ## Coordination frame properties (C10, shared with C5) -/

theorem centerOk_of_found {orig L : ℚ} {existing : List ExistingSplice}
    {zones : List ProhibitedZone} {B c : ℚ}
    (h : findNonConflictingSplicePosition orig L existing zones B = some c) :
    centerOk L B existing zones c = true := by
  rw [findNonConflicting_eq_find] at h
  split at h
  · exact absurd h (by simp)
  · exact List.find?_some h

theorem coordSpliceStep_outcome (zones : List ProhibitedZone) (B : ℚ)
    (existing : List ExistingSplice) (sp : Splice) :
    SpliceOutcome sp (coordSpliceStep zones B existing sp).1 := by
  simp only [coordSpliceStep]
  split_ifs with h1 h2
  · exact Or.inl rfl
  · exact Or.inl rfl
  · cases h : findNonConflictingSplicePosition (spliceCenter sp)
        (spliceEffLen sp) existing zones B with
    | none => simp only [h]; exact Or.inl rfl
    | some c =>
      simp only [h]
      have hok := centerOk_of_found h
      simp only [centerOk, Bool.and_eq_true, decide_eq_true_eq, not_or,
        not_lt] at hok
      obtain ⟨⟨hlow, hhigh⟩, -, -⟩ := hok
      refine Or.inr ⟨rfl, ?_, rfl, rfl, rfl, rfl⟩
      simp only [qmax, qmin]
      split_ifs <;> linarith

theorem coordSplicesGo_outcome (zones : List ProhibitedZone) (B : ℚ) :
    ∀ (sps : List Splice) (existing : List ExistingSplice),
      List.Forall₂ SpliceOutcome sps (coordSplicesGo zones B existing sps).1
  | [], _ => List.Forall₂.nil
  | sp :: rest, existing =>
    List.Forall₂.cons (coordSpliceStep_outcome zones B existing sp)
      (coordSplicesGo_outcome zones B rest _)

theorem barOutcome_refl (b : RebarDetail) : BarOutcome b b := by
  refine ⟨rfl, rfl, rfl, rfl, rfl, rfl, rfl, rfl, rfl, rfl, ?_⟩
  cases hs : b.splices with
  | none => exact Or.inl ⟨rfl, rfl⟩
  | some sps =>
    exact Or.inr ⟨sps, sps, rfl, rfl,
      List.forall₂_same.mpr (fun x _ => Or.inl rfl)⟩

theorem coordBarStep_outcome (zones : List ProhibitedZone) (B : ℚ)
    (existing : List ExistingSplice) (bar : RebarDetail) :
    BarOutcome bar (coordBarStep zones B existing bar).1 := by
  rcases hs : bar.splices with - | (- | ⟨a, l⟩)
  · rw [coordBarStep, hs]
    exact barOutcome_refl bar
  · rw [coordBarStep, hs]
    exact barOutcome_refl bar
  · rw [coordBarStep, hs]
    dsimp only
    split
    · exact ⟨rfl, rfl, rfl, rfl, rfl, rfl, rfl, rfl, rfl, rfl,
        Or.inr ⟨a :: l, _, hs, rfl,
          coordSplicesGo_outcome zones B (a :: l) existing⟩⟩
    · exact ⟨rfl, rfl, rfl, rfl, rfl, rfl, rfl, rfl, rfl, rfl,
        Or.inr ⟨a :: l, _, hs, rfl,
          coordSplicesGo_outcome zones B (a :: l) existing⟩⟩

theorem coordBarsGo_outcome (zones : List ProhibitedZone) (B : ℚ) :
    ∀ (bars : List RebarDetail) (existing : List ExistingSplice),
      List.Forall₂ BarOutcome bars (coordBarsGo zones B existing bars)
  | [], _ => List.Forall₂.nil
  | bar :: rest, existing =>
    List.Forall₂.cons (coordBarStep_outcome zones B existing bar)
      (coordBarsGo_outcome zones B rest _)

/-- **C10.** `_coordinate_splice_positions` returns the top set exactly as
passed in, and every bottom splice is either untouched or relocated with its
extent exactly preserved (the bounds check on the accepted center makes the
`max(0, ·)` / `min(beam_length, ·)` clamps no-ops); all other bar fields are
unchanged. -/
theorem c10_coordination_frame (top bottom : List RebarDetail)
    (zones : List ProhibitedZone) (B : ℚ) :
    (coordinateSplicePositions top bottom zones B).1 = top ∧
    List.Forall₂ BarOutcome bottom
      (coordinateSplicePositions top bottom zones B).2 := by
  rw [coordinateSplicePositions]
  split
  · exact ⟨rfl, List.forall₂_same.mpr (fun b _ => barOutcome_refl b)⟩
  · exact ⟨rfl, coordBarsGo_outcome zones B bottom (existingFromTop top)⟩

/-! ## Inversion of the loop bodies -/

theorem topStep_cont_inv {P : SegParams} {bar : RebarDetail}
    {zones : List ProhibitedZone} {pp hsh heh : Bool} {s : ℚ} {piece : ℕ}
    {seg : RebarDetail} {joint : Splice} {next : ℚ}
    (h : topStep P bar zones pp hsh heh s piece = .cont seg joint next) :
    seg = mkSegment bar piece s
        (topSegmentEnd P bar zones pp hsh heh s piece) "Superior" ∧
    joint = ⟨qmax bar.startM
        (topSegmentEnd P bar zones pp hsh heh s piece - P.spliceLength),
      topSegmentEnd P bar zones pp hsh heh s piece,
      topSegmentEnd P bar zones pp hsh heh s piece -
        qmax bar.startM
          (topSegmentEnd P bar zones pp hsh heh s piece - P.spliceLength),
      "lap_splice_class_b", "top", false, none⟩ ∧
    next = qmax bar.startM
      (topSegmentEnd P bar zones pp hsh heh s piece - P.spliceLength) ∧
    ¬(topSegmentEnd P bar zones pp hsh heh s piece - s ≤ 0) ∧
    ¬(bar.endM - eps6 ≤ topSegmentEnd P bar zones pp hsh heh s piece) := by
  simp only [topStep] at h
  split_ifs at h with h1 h2 h3
  all_goals first
    | exact StepRes.noConfusion h
    | (injection h with hA hB hC
       subst hA
       subst hB
       subst hC
       exact ⟨rfl, rfl, rfl, by assumption, by assumption⟩)

theorem topStep_halt_inv {P : SegParams} {bar : RebarDetail}
    {zones : List ProhibitedZone} {pp hsh heh : Bool} {s : ℚ} {piece : ℕ}
    {segs : List RebarDetail} {joints : List Splice}
    (h : topStep P bar zones pp hsh heh s piece = .halt segs joints) :
    joints = [] ∧
    (segs = [] ∨
      (segs = [mkSegment bar piece s
          (topSegmentEnd P bar zones pp hsh heh s piece) "Superior"] ∧
        ¬(topSegmentEnd P bar zones pp hsh heh s piece - s ≤ 0) ∧
        bar.endM - eps6 ≤ topSegmentEnd P bar zones pp hsh heh s piece)) := by
  simp only [topStep] at h
  split_ifs at h with h1 h2 h3
  all_goals first
    | exact StepRes.noConfusion h
    | (injection h with hA hB
       first
         | exact ⟨hB.symm, Or.inl hA.symm⟩
         | exact ⟨hB.symm, Or.inr ⟨hA.symm, by assumption, by assumption⟩⟩)

theorem bottomStep_cont_inv {P : SegParams} {bar : RebarDetail}
    {zones : List ProhibitedZone} {ft : ℚ} {hsh heh : Bool} {s : ℚ}
    {piece : ℕ} {seg : RebarDetail} {joint : Splice} {next : ℚ}
    (h : bottomStep P bar zones ft hsh heh s piece = .cont seg joint next) :
    seg = mkSegment bar piece s
        (bottomSegmentEnd P bar zones ft hsh heh s piece) "Inferior" ∧
    joint = ⟨qmax bar.startM
        (bottomSegmentEnd P bar zones ft hsh heh s piece - P.spliceLength),
      bottomSegmentEnd P bar zones ft hsh heh s piece,
      bottomSegmentEnd P bar zones ft hsh heh s piece -
        qmax bar.startM
          (bottomSegmentEnd P bar zones ft hsh heh s piece - P.spliceLength),
      "lap_splice_class_b", "bottom", false, none⟩ ∧
    next = qmax bar.startM
      (bottomSegmentEnd P bar zones ft hsh heh s piece - P.spliceLength) ∧
    ¬(bottomSegmentEnd P bar zones ft hsh heh s piece - s ≤ 0) ∧
    ¬(bar.endM - eps6 ≤ bottomSegmentEnd P bar zones ft hsh heh s piece) := by
  simp only [bottomStep] at h
  split_ifs at h with h1 h2 h3
  all_goals first
    | exact StepRes.noConfusion h
    | (injection h with hA hB hC
       subst hA
       subst hB
       subst hC
       exact ⟨rfl, rfl, rfl, by assumption, by assumption⟩)

theorem bottomStep_halt_inv {P : SegParams} {bar : RebarDetail}
    {zones : List ProhibitedZone} {ft : ℚ} {hsh heh : Bool} {s : ℚ}
    {piece : ℕ} {segs : List RebarDetail} {joints : List Splice}
    (h : bottomStep P bar zones ft hsh heh s piece = .halt segs joints) :
    joints = [] ∧
    (segs = [] ∨
      (segs = [mkSegment bar piece s
          (bottomSegmentEnd P bar zones ft hsh heh s piece) "Inferior"] ∧
        ¬(bottomSegmentEnd P bar zones ft hsh heh s piece - s ≤ 0) ∧
        bar.endM - eps6 ≤ bottomSegmentEnd P bar zones ft hsh heh s piece)) := by
  simp only [bottomStep] at h
  split_ifs at h with h1 h2 h3
  all_goals first
    | exact StepRes.noConfusion h
    | (injection h with hA hB
       first
         | exact ⟨hB.symm, Or.inl hA.symm⟩
         | exact ⟨hB.symm, Or.inr ⟨hA.symm, by assumption, by assumption⟩⟩)

/-! ## Splice lengths of the segmentation joints (C5) -/

theorem sub_qmax_eq (bs e L : ℚ) : e - qmax bs (e - L) = qmin L (e - bs) := by
  simp only [qmax, qmin]
  split_ifs with h1 h2 <;> linarith

theorem topLoop_joints (P : SegParams) (bar : RebarDetail)
    (zones : List ProhibitedZone) (pp hsh heh : Bool) :
    ∀ fuel s piece,
      ∀ j ∈ (topLoop P bar zones pp hsh heh fuel s piece).joints,
        j.sStart = qmax bar.startM (j.sEnd - P.spliceLength) ∧
        j.sLen = j.sEnd - j.sStart := by
  intro fuel
  induction fuel with
  | zero =>
    intro s piece j hj
    rw [topLoop] at hj
    revert hj
    split <;> simp
  | succ n ih =>
    intro s piece j hj
    rw [topLoop] at hj
    revert hj
    split
    · cases hstep : topStep P bar zones pp hsh heh s piece with
      | halt segs joints =>
        intro hj
        obtain ⟨hjnil, -⟩ := topStep_halt_inv hstep
        subst hjnil
        exact absurd hj (List.not_mem_nil j)
      | cont seg joint next =>
        intro hj
        rcases List.mem_cons.mp hj with rfl | hj'
        · obtain ⟨-, hB, -, -, -⟩ := topStep_cont_inv hstep
          subst hB
          exact ⟨rfl, rfl⟩
        · exact ih next (piece + 1) j hj'
    · simp

theorem bottomLoop_joints (P : SegParams) (bar : RebarDetail)
    (zones : List ProhibitedZone) (ft : ℚ) (hsh heh : Bool) :
    ∀ fuel s piece,
      ∀ j ∈ (bottomLoop P bar zones ft hsh heh fuel s piece).joints,
        j.sStart = qmax bar.startM (j.sEnd - P.spliceLength) ∧
        j.sLen = j.sEnd - j.sStart := by
  intro fuel
  induction fuel with
  | zero =>
    intro s piece j hj
    rw [bottomLoop] at hj
    revert hj
    split <;> simp
  | succ n ih =>
    intro s piece j hj
    rw [bottomLoop] at hj
    revert hj
    split
    · cases hstep : bottomStep P bar zones ft hsh heh s piece with
      | halt segs joints =>
        intro hj
        obtain ⟨hjnil, -⟩ := bottomStep_halt_inv hstep
        subst hjnil
        exact absurd hj (List.not_mem_nil j)
      | cont seg joint next =>
        intro hj
        rcases List.mem_cons.mp hj with rfl | hj'
        · obtain ⟨-, hB, -, -, -⟩ := bottomStep_cont_inv hstep
          subst hB
          exact ⟨rfl, rfl⟩
        · exact ih next (piece + 1) j hj'
    · simp

/-- **C5 counterexample.** Top bar `[0, 20]`, `max_length = 9`,
`splice_length = 7` (accepted by the entry guard since `7 < 9`): the 60 %
first-piece rule makes the first segment end at `5.4`, and the first joint is
clamped at the bar start with length `5.4 < 7`. -/
theorem c5_counterexample :
    ((splitTopBarCore paramsC5 barC5 [] false).joints.head?.map
      (fun j => j.sLen)) = some 5.4 ∧
    paramsC5.spliceLength = 7 ∧ ¬((7 : ℚ) ≤ 5.4) :=
  ⟨by with_unfolding_all decide, rfl, by norm_num⟩

/-- **C5 (amended).** Every splice record produced by either segmentation
strategy satisfies `start = max(bar.start, end − splice_length)`, hence
`end − start = min(splice_length, end − bar.start)` — equal to the supplied
`splice_length` exactly, except when the splice is clamped at the bar's
start; and coordination either leaves a splice untouched or relocates it with
its extent exactly preserved. -/
theorem c5_splice_min_length :
    (∀ (P : SegParams) (bar : RebarDetail) (zones : List ProhibitedZone)
      (pp : Bool), ∀ j ∈ (splitTopBarCore P bar zones pp).joints,
        j.sStart = qmax bar.startM (j.sEnd - P.spliceLength) ∧
        j.sLen = j.sEnd - j.sStart ∧
        j.sLen = qmin P.spliceLength (j.sEnd - bar.startM)) ∧
    (∀ (P : SegParams) (bar : RebarDetail) (zones : List ProhibitedZone)
      (r : ℚ), ∀ j ∈ (splitBottomBarCore P bar zones r).joints,
        j.sStart = qmax bar.startM (j.sEnd - P.spliceLength) ∧
        j.sLen = j.sEnd - j.sStart ∧
        j.sLen = qmin P.spliceLength (j.sEnd - bar.startM)) ∧
    (∀ (zones : List ProhibitedZone) (B : ℚ)
      (existing : List ExistingSplice) (sp : Splice),
      SpliceOutcome sp (coordSpliceStep zones B existing sp).1) := by
  refine ⟨?_, ?_, coordSpliceStep_outcome⟩
  · intro P bar zones pp j hj
    obtain ⟨h1, h2⟩ := topLoop_joints P bar zones pp _ _ 100 bar.startM 1 j hj
    refine ⟨h1, h2, ?_⟩
    rw [h2, h1, sub_qmax_eq]
  · intro P bar zones r j hj
    obtain ⟨h1, h2⟩ := bottomLoop_joints P bar zones _ _ _ 100 bar.startM 1 j hj
    refine ⟨h1, h2, ?_⟩
    rw [h2, h1, sub_qmax_eq]

/-- **C5 witness.** The single joint `[8.1, 9]` of the Scenario-B run:
its length `0.9` equals `min(splice_length, end − bar.start)`. -/
theorem c5_splice_min_length_witness :
    (⟨8.1, 9, 0.9, "lap_splice_class_b", "top", false, none⟩ : Splice) ∈
      (splitTopBarCore paramsB barB [] false).joints ∧
    (⟨8.1, 9, 0.9, "lap_splice_class_b", "top", false, none⟩ : Splice).sLen =
      qmin paramsB.spliceLength
        ((⟨8.1, 9, 0.9, "lap_splice_class_b", "top", false, none⟩ : Splice).sEnd -
          barB.startM) := by
  have hmem : (⟨8.1, 9, 0.9, "lap_splice_class_b", "top", false, none⟩ : Splice) ∈
      (splitTopBarCore paramsB barB [] false).joints := by
    with_unfolding_all decide
  exact ⟨hmem, (c5_splice_min_length.1 paramsB barB [] false _ hmem).2.2⟩

/-! ## Bounds on the candidate-end computations (towards C1) -/

theorem qmin_le_left (a b : ℚ) : qmin a b ≤ a := by
  rw [qmin_eq_min]; exact min_le_left a b

theorem qmin_le_right (a b : ℚ) : qmin a b ≤ b := by
  rw [qmin_eq_min]; exact min_le_right a b

theorem le_qmin {a b c : ℚ} (h1 : c ≤ a) (h2 : c ≤ b) : c ≤ qmin a b := by
  rw [qmin_eq_min]; exact le_min h1 h2

theorem lt_qmin {a b c : ℚ} (h1 : c < a) (h2 : c < b) : c < qmin a b := by
  rw [qmin_eq_min]; exact lt_min h1 h2

theorem qmin_cases (a b : ℚ) : qmin a b = a ∨ qmin a b = b := by
  rw [qmin]; split
  · exact Or.inl rfl
  · exact Or.inr rfl

theorem le_qmax_left (a b : ℚ) : a ≤ qmax a b := by
  rw [qmax_eq_max]; exact le_max_left a b

theorem le_qmax_right (a b : ℚ) : b ≤ qmax a b := by
  rw [qmax_eq_max]; exact le_max_right a b

theorem qmax_lt {a b c : ℚ} (h1 : a < c) (h2 : b < c) : qmax a b < c := by
  rw [qmax_eq_max]; exact max_lt h1 h2

theorem qmax_le {a b c : ℚ} (h1 : a ≤ c) (h2 : b ≤ c) : qmax a b ≤ c := by
  rw [qmax_eq_max]; exact max_le h1 h2

theorem qmax_cases (a b : ℚ) : qmax a b = a ∨ qmax a b = b := by
  rw [qmax]; split
  · exact Or.inr rfl
  · exact Or.inl rfl

theorem tol_pos : (0 : ℚ) < tol := by norm_num [tol]

theorem eps6_lt_tol : eps6 < tol := by norm_num [eps6, tol]

theorem eps6_pos : (0 : ℚ) < eps6 := by norm_num [eps6]

/-- The usable maximum is always positive: the graceful-degradation
fallback restores the full maximum when the hook deductions consume it. -/
theorem usableMaxOf_pos (P : SegParams) (hsh heh : Bool) (piece : ℕ)
    (remaining : ℚ) (hmax : 0 < P.maxLength) :
    0 < usableMaxOf P hsh heh piece remaining := by
  rw [usableMaxOf]
  split_ifs <;> linarith


/-- From the second piece on the usable maximum is the full maximum, or -
under an active end-hook deduction that does not consume it - the reduced
positive value. -/
theorem usableMaxOf_cases (P : SegParams) (hsh heh : Bool) (piece : ℕ)
    (remaining : ℚ) (hp2 : 2 ≤ piece) :
    usableMaxOf P hsh heh piece remaining = P.maxLength ∨
    (heh = true ∧ remaining ≤ P.maxLength + tol ∧
      usableMaxOf P hsh heh piece remaining =
        P.maxLength - P.hookLength ∧
      0 < P.maxLength - P.hookLength) := by
  have hp1 : ¬(hsh = true ∧ piece = 1) := by rintro ⟨-, h⟩; omega
  simp only [usableMaxOf, if_neg hp1]
  by_cases hc : heh = true ∧ remaining ≤ P.maxLength + tol
  · rw [if_pos hc]
    by_cases hf : P.maxLength - (0 + P.hookLength) ≤ 0
    · rw [if_pos hf]
      exact Or.inl rfl
    · rw [if_neg hf]
      exact Or.inr ⟨hc.1, hc.2, by ring, by linarith⟩
  · rw [if_neg hc]
    by_cases hf : P.maxLength - (0 + 0) ≤ 0
    · rw [if_pos hf]
      exact Or.inl rfl
    · rw [if_neg hf]
      exact Or.inl (by ring)

/-- With an end hook and a positive reduced maximum, the usable maximum
from the second piece on, by remaining length. -/
theorem usableMaxOf_heh (P : SegParams) (hsh heh : Bool) (piece : ℕ)
    (remaining : ℚ) (hp1 : ¬ piece = 1) (hheh : heh = true)
    (hmh : 0 < P.maxLength - P.hookLength) :
    (remaining ≤ P.maxLength + tol ∧
      usableMaxOf P hsh heh piece remaining =
        P.maxLength - P.hookLength) ∨
    (P.maxLength + tol < remaining ∧
      usableMaxOf P hsh heh piece remaining = P.maxLength) := by
  have hp1' : ¬(hsh = true ∧ piece = 1) := by rintro ⟨-, h⟩; exact hp1 h
  simp only [usableMaxOf, if_neg hp1']
  by_cases hr : remaining ≤ P.maxLength + tol
  · have hc : heh = true ∧ remaining ≤ P.maxLength + tol := ⟨hheh, hr⟩
    rw [if_pos hc]
    rw [if_neg (show ¬ P.maxLength - (0 + P.hookLength) ≤ 0 by linarith)]
    exact Or.inl ⟨hr, by ring⟩
  · rw [if_neg (by rintro ⟨-, h⟩; exact hr h :
      ¬(heh = true ∧ remaining ≤ P.maxLength + tol))]
    refine Or.inr ⟨not_le.mp hr, ?_⟩
    by_cases hf : P.maxLength - (0 + 0) ≤ 0
    · rw [if_pos hf]
    · rw [if_neg hf]
      ring


/-- The backward zone-shift either keeps the candidate end or moves it to a
value that is no larger and still clear of the lower guard. -/
theorem adjustSegmentEnd_cases (s c L : ℚ) (zones : List ProhibitedZone) :
    adjustSegmentEnd s c L zones = c ∨
    (adjustSegmentEnd s c L zones ≤ c ∧
      s + L + tol < adjustSegmentEnd s c L zones) := by
  have key : ∀ (n : ℕ) (a : ℚ), a ≤ c →
      (adjustGo s c L zones n a).1 = c ∨ (adjustGo s c L zones n a).1 = a ∨
      ((adjustGo s c L zones n a).1 ≤ a ∧
        s + L + tol < (adjustGo s c L zones n a).1) := by
    intro n
    induction n with
    | zero => intro a _; exact Or.inr (Or.inl rfl)
    | succ m ih =>
      intro a ha
      rw [adjustGo]
      dsimp only
      have ht := tol_pos
      split <;>
      · split
        · exact Or.inr (Or.inl rfl)
        · split
          · exact Or.inr (Or.inl rfl)
          · rename_i zone hz
            split
            · exact Or.inl rfl
            · rename_i hshift
              rw [findOverlappingZone] at hz
              have hpred := List.find?_some hz
              simp only [decide_eq_true_eq] at hpred
              have hza : zone.startM < a :=
                lt_of_le_of_lt (le_qmax_right _ _)
                  (lt_of_lt_of_le hpred (qmin_le_left _ _))
              have hsh2 : ¬(zone.startM - tol - L ≤ s + tol) := hshift
              rcases ih (zone.startM - tol) (by linarith) with h | h | ⟨h1, h2⟩
              · exact Or.inl h
              · exact Or.inr (Or.inr ⟨by linarith, by linarith⟩)
              · exact Or.inr (Or.inr ⟨by linarith, h2⟩)
  rcases key 20 c (le_refl c) with h | h | ⟨h1, h2⟩
  · exact Or.inl h
  · exact Or.inl h
  · exact Or.inr ⟨h1, h2⟩

/-- The before-zone corridor preference either keeps the candidate or chooses
a target strictly past `current_start + tol` and at least
`current_start + splice_length`. -/
theorem preferSplice_cases (cs js ce L : ℚ) (zones : List ProhibitedZone) :
    preferSplicePrevCorridor cs js ce L zones = ce ∨
    (cs + tol < preferSplicePrevCorridor cs js ce L zones ∧
      cs + L ≤ preferSplicePrevCorridor cs js ce L zones) := by
  rw [preferSplicePrevCorridor]
  split
  · exact Or.inl rfl
  · split
    · exact Or.inl rfl
    · split
      · exact Or.inl rfl
      · split
        · exact Or.inl rfl
        · rename_i bz pe hpe
          dsimp only
          split
          · exact Or.inl rfl
          · split
            · exact Or.inl rfl
            · rename_i hav htar
              refine Or.inr ⟨lt_of_not_le htar, ?_⟩
              have h1 := not_lt.mp hpe
              have h2 := not_lt.mp hav
              have ht := tol_pos
              exact le_qmin (by linarith) (by linarith)

theorem not_and_of_ne_one {p : ℕ} (h : ¬ p = 1) {Q : Prop} : ¬(p = 1 ∧ Q) :=
  fun hc => h hc.1

/-- Bounds for the top-strategy candidate end: it lies strictly between
the current start and the bar end (inclusive); from the second piece on,
when the usable maximum has room for the splice, it also leaves room for a
full-length splice unless it reaches the bar end. -/
theorem topCandidate_bounds (P : SegParams) (bar : RebarDetail)
    (zones : List ProhibitedZone) (pp hsh heh : Bool) (s : ℚ) (piece : ℕ)
    (hL : 0 < P.spliceLength) (hmax : 0 < P.maxLength)
    (hs : s < bar.endM - eps6) :
    s < topCandidate P bar zones pp hsh heh s piece ∧
    topCandidate P bar zones pp hsh heh s piece ≤ bar.endM ∧
    (2 ≤ piece →
      P.spliceLength ≤ usableMaxOf P hsh heh piece (bar.endM - s) →
      s + P.spliceLength ≤ topCandidate P bar zones pp hsh heh s piece ∨
      topCandidate P bar zones pp hsh heh s piece = bar.endM) := by
  have ht := tol_pos
  have he := eps6_pos
  have hrem : qmax (bar.endM - s) 0 = bar.endM - s := by
    rw [qmax_eq_max]; exact max_eq_left (by linarith)
  have hU := usableMaxOf_pos P hsh heh piece (bar.endM - s) hmax
  simp only [topCandidate, hrem]
  set U := usableMaxOf P hsh heh piece (bar.endM - s) with hUdef
  set SL := (if piece = 1 ∧ P.maxLength * 1.8 < bar.endM - s then
      qmin (U * 0.6) (bar.endM - s) else qmin U (bar.endM - s)) with hSLdef
  have hSLpos : 0 < SL := by
    rw [hSLdef]; split
    · exact lt_qmin (by linarith) (by linarith)
    · exact lt_qmin (by linarith) (by linarith)
  have hSLle : SL ≤ bar.endM - s := by
    rw [hSLdef]; split
    · exact qmin_le_right _ _
    · exact qmin_le_right _ _
  have hc0a : s < s + SL := by linarith
  have hc0b : s + SL ≤ bar.endM := by linarith
  have hc0d : 2 ≤ piece → P.spliceLength ≤ U →
      s + P.spliceLength ≤ s + SL ∨ s + SL = bar.endM := by
    intro hp2 hus
    have hp1 : ¬(piece = 1 ∧ P.maxLength * 1.8 < bar.endM - s) := by
      rintro ⟨h1, -⟩; omega
    rw [hSLdef, if_neg hp1]
    rcases qmin_cases U (bar.endM - s) with h | h
    · left; rw [h]; linarith
    · right; rw [h]; ring
  split
  · split
    · split
      · rename_i hpc
        rcases preferSplice_cases s
            (qmax bar.startM (s + SL - P.spliceLength)) (s + SL)
            P.spliceLength zones with hpr | ⟨hpr1, hpr2⟩
        · rw [hpr]; exact ⟨hc0a, hc0b, hc0d⟩
        · exact ⟨by linarith, by linarith, fun _ _ => Or.inl hpr2⟩
      · exact ⟨hc0a, hc0b, hc0d⟩
    · exact ⟨hc0a, hc0b, hc0d⟩
  · exact ⟨hc0a, hc0b, hc0d⟩


/-- Bounds for the top-strategy segment end: strictly after the start, at
most the bar end, and either exactly the bar end or strictly clear of it
by the tolerance; the splice-room clause as for the candidate. -/
theorem topSegmentEnd_bounds (P : SegParams) (bar : RebarDetail)
    (zones : List ProhibitedZone) (pp hsh heh : Bool) (s : ℚ) (piece : ℕ)
    (hL : 0 < P.spliceLength) (hmax : 0 < P.maxLength)
    (hs : s < bar.endM - eps6) :
    s < topSegmentEnd P bar zones pp hsh heh s piece ∧
    topSegmentEnd P bar zones pp hsh heh s piece ≤ bar.endM ∧
    (topSegmentEnd P bar zones pp hsh heh s piece = bar.endM ∨
      topSegmentEnd P bar zones pp hsh heh s piece < bar.endM - tol) ∧
    (2 ≤ piece →
      P.spliceLength ≤ usableMaxOf P hsh heh piece (bar.endM - s) →
      s + P.spliceLength ≤ topSegmentEnd P bar zones pp hsh heh s piece ∨
      topSegmentEnd P bar zones pp hsh heh s piece = bar.endM) := by
  have ht := tol_pos
  have he := eps6_pos
  obtain ⟨h1, h2, h3⟩ := topCandidate_bounds P bar zones pp hsh heh s piece
    hL hmax hs
  simp only [topSegmentEnd]
  set C := topCandidate P bar zones pp hsh heh s piece with hC
  split
  · exact ⟨by linarith, le_refl _, Or.inl rfl, fun _ _ => Or.inr rfl⟩
  · rename_i hnl
    have hn : C < bar.endM - tol := by linarith [not_le.mp hnl]
    rcases adjustSegmentEnd_cases s C P.spliceLength zones with ha | ⟨ha1, ha2⟩
    · rw [ha]
      refine ⟨h1, h2, Or.inr hn, fun hp2 hus => ?_⟩
      rcases h3 hp2 hus with h | h
      · exact Or.inl h
      · exact absurd h (by intro hh2; rw [hh2] at hn; linarith)
    · exact ⟨by linarith, by linarith, Or.inr (by linarith),
        fun _ _ => Or.inl (by linarith)⟩

/-- The top candidate from the second piece on never exceeds the plain
`start + min(usable, remaining)` value. -/
theorem topCandidate_le2 (P : SegParams) (bar : RebarDetail)
    (zones : List ProhibitedZone) (pp hsh heh : Bool) (s : ℚ) (piece : ℕ)
    (hp1 : ¬ piece = 1) :
    topCandidate P bar zones pp hsh heh s piece ≤
      s + qmin (usableMaxOf P hsh heh piece (qmax (bar.endM - s) 0))
        (qmax (bar.endM - s) 0) := by
  have ht := tol_pos
  simp only [topCandidate]
  set U := usableMaxOf P hsh heh piece (qmax (bar.endM - s) 0) with hUdef
  set SL := (if piece = 1 ∧ P.maxLength * 1.8 < qmax (bar.endM - s) 0 then
      qmin (U * 0.6) (qmax (bar.endM - s) 0)
    else qmin U (qmax (bar.endM - s) 0)) with hSLdef
  have hSL : SL = qmin U (qmax (bar.endM - s) 0) := by
    rw [hSLdef]
    exact if_neg (not_and_of_ne_one hp1)
  rw [← hSL]
  split
  · split
    · split
      · rename_i hpc
        linarith
      · exact le_refl _
    · exact le_refl _
  · exact le_refl _


/-- If the plain candidate already reaches the bar end up to the tolerance,
the top segment end snaps to the bar end exactly (second piece on). -/
theorem topSegmentEnd_snap (P : SegParams) (bar : RebarDetail)
    (zones : List ProhibitedZone) (pp hsh heh : Bool) (s : ℚ) (piece : ℕ)
    (hp1 : ¬ piece = 1)
    (hsnap : bar.endM - tol ≤
      s + qmin (usableMaxOf P hsh heh piece (qmax (bar.endM - s) 0))
        (qmax (bar.endM - s) 0)) :
    topSegmentEnd P bar zones pp hsh heh s piece = bar.endM := by
  simp only [topSegmentEnd, topCandidate]
  set U := usableMaxOf P hsh heh piece (qmax (bar.endM - s) 0) with hUdef
  set SL := (if piece = 1 ∧ P.maxLength * 1.8 < qmax (bar.endM - s) 0 then
      qmin (U * 0.6) (qmax (bar.endM - s) 0)
    else qmin U (qmax (bar.endM - s) 0)) with hSLdef
  have hSL : SL = qmin U (qmax (bar.endM - s) 0) := by
    rw [hSLdef]
    exact if_neg (not_and_of_ne_one hp1)
  have hsnap' : bar.endM - tol ≤ s + SL := by
    rw [hSL]
    exact hsnap
  rw [if_neg (show ¬(pp = true ∧
      decide (bar.endM - tol ≤ s + SL) = false ∧ 0 < P.spliceLength) from by
    rintro ⟨-, hx, -⟩
    simp only [decide_eq_false_iff_not] at hx
    exact hx hsnap')]
  rw [if_pos hsnap']


theorem bottomCandidate0_le (P : SegParams) (bar : RebarDetail) (ft : ℚ)
    (hsh heh : Bool) (s : ℚ) (piece : ℕ) :
    bottomCandidate0 P bar ft hsh heh s piece ≤ bar.endM := by
  rw [bottomCandidate0]
  exact qmin_le_right _ _

theorem bottomC1_le (P : SegParams) (bar : RebarDetail)
    (zones : List ProhibitedZone) (ft : ℚ) (hsh heh : Bool) (s : ℚ)
    (piece : ℕ) :
    (bottomC1 P bar zones ft hsh heh s piece).1 ≤ bar.endM := by
  simp only [bottomC1]
  split
  · split
    · exact qmin_le_left _ _
    · exact bottomCandidate0_le P bar ft hsh heh s piece
  · exact bottomCandidate0_le P bar ft hsh heh s piece

theorem bottomC2_le (P : SegParams) (bar : RebarDetail)
    (zones : List ProhibitedZone) (ft : ℚ) (hsh heh : Bool) (s : ℚ)
    (piece : ℕ) :
    (bottomC2 P bar zones ft hsh heh s piece).1 ≤ bar.endM := by
  simp only [bottomC2]
  split
  · split
    · split
      · exact qmin_le_left _ _
      · exact bottomC1_le P bar zones ft hsh heh s piece
    · exact bottomC1_le P bar zones ft hsh heh s piece
  · exact bottomC1_le P bar zones ft hsh heh s piece

theorem bottomCandidate_le (P : SegParams) (bar : RebarDetail)
    (zones : List ProhibitedZone) (ft : ℚ) (hsh heh : Bool) (s : ℚ)
    (piece : ℕ) :
    (bottomCandidate P bar zones ft hsh heh s piece).1 ≤ bar.endM := by
  simp only [bottomCandidate]
  split
  · rcases adjustSegmentEnd_cases s
        (bottomC2 P bar zones ft hsh heh s piece).1 P.spliceLength zones with
      ha | ⟨ha1, _⟩
    · rw [ha]; exact bottomC2_le P bar zones ft hsh heh s piece
    · exact le_trans ha1 (bottomC2_le P bar zones ft hsh heh s piece)
  · exact bottomC2_le P bar zones ft hsh heh s piece

theorem bottomSegmentEnd_le (P : SegParams) (bar : RebarDetail)
    (zones : List ProhibitedZone) (ft : ℚ) (hsh heh : Bool) (s : ℚ)
    (piece : ℕ) :
    bottomSegmentEnd P bar zones ft hsh heh s piece ≤ bar.endM := by
  simp only [bottomSegmentEnd]
  split
  · exact le_refl _
  · exact bottomCandidate_le P bar zones ft hsh heh s piece

theorem topStep_nil_cases {P : SegParams} {bar : RebarDetail}
    {zones : List ProhibitedZone} {pp hsh heh : Bool} {s : ℚ} {piece : ℕ}
    {segs : List RebarDetail} {joints : List Splice}
    (h : topStep P bar zones pp hsh heh s piece = .halt segs joints)
    (hnil : segs = []) :
    qmax (bar.endM - s) 0 ≤ 0 ∨
    topSegmentEnd P bar zones pp hsh heh s piece - s ≤ 0 := by
  subst hnil
  simp only [topStep] at h
  split_ifs at h with h1 h2 h3
  · exact Or.inl h1
  · exact Or.inr h2
  · exact absurd (congrArg (fun r => match r with
      | StepRes.halt segs _ => segs.length
      | StepRes.cont _ _ _ => 0) h) (by simp)

theorem bottomStep_nil_cases {P : SegParams} {bar : RebarDetail}
    {zones : List ProhibitedZone} {ft : ℚ} {hsh heh : Bool} {s : ℚ}
    {piece : ℕ} {segs : List RebarDetail} {joints : List Splice}
    (h : bottomStep P bar zones ft hsh heh s piece = .halt segs joints)
    (hnil : segs = []) :
    qmax (bar.endM - s) 0 ≤ 0 ∨
    bottomSegmentEnd P bar zones ft hsh heh s piece - s ≤ 0 := by
  subst hnil
  simp only [bottomStep] at h
  split_ifs at h with h1 h2 h3
  · exact Or.inl h1
  · exact Or.inr h2
  · exact absurd (congrArg (fun r => match r with
      | StepRes.halt segs _ => segs.length
      | StepRes.cont _ _ _ => 0) h) (by simp)

theorem tbc_nil (a b c : ℚ) : targetBottomCorridorEnd a b c [] = none := rfl

theorem ovz_nil (a b : ℚ) : overlapsProhibitedZone a b [] = false := rfl

theorem adjust_nil (a b c : ℚ) : adjustSegmentEnd a b c [] = b := by
  rw [adjustSegmentEnd, show (20 : ℕ) = 19 + 1 from rfl, adjustGo]
  simp [overlapsProhibitedZone]

/-- With no prohibited zones, the bottom candidate is just the initial
candidate with its consistent `is_last_segment` flag. -/
theorem bottomCandidate_nil (P : SegParams) (bar : RebarDetail) (ft : ℚ)
    (hsh heh : Bool) (s : ℚ) (piece : ℕ) :
    bottomCandidate P bar [] ft hsh heh s piece =
      (bottomCandidate0 P bar ft hsh heh s piece,
        decide (bar.endM - tol ≤ bottomCandidate0 P bar ft hsh heh s piece)) := by
  simp only [bottomCandidate, bottomC2, bottomC1, tbc_nil, ite_self, ovz_nil,
    adjust_nil]
  split_ifs <;> simp_all

theorem bottomCandidate0_eq2 (P : SegParams) (bar : RebarDetail) (ft : ℚ)
    (hsh heh : Bool) (s : ℚ) (piece : ℕ) (hp1 : ¬ piece = 1) :
    bottomCandidate0 P bar ft hsh heh s piece =
      qmin (s + qmin (usableMaxOf P hsh heh piece (qmax (bar.endM - s) 0))
        (qmax (bar.endM - s) 0)) bar.endM := by
  simp only [bottomCandidate0, if_neg hp1]

/-- Once an end-hook deduction leaves the usable maximum at or below the
splice length, the strategy loop can never finish: each body regresses or
creeps while staying clear of the bar end, so the fuel always runs out. -/
theorem topLoop_stuck (P : SegParams) (bar : RebarDetail)
    (zones : List ProhibitedZone) (pp hsh heh : Bool)
    (hL : 0 < P.spliceLength) (hmax : 0 < P.maxLength)
    (hheh : heh = true) (hmh : 0 < P.maxLength - P.hookLength)
    (hLm2 : P.maxLength - P.hookLength ≤ P.spliceLength) :
    ∀ (fuel : ℕ) (s : ℚ) (piece : ℕ), bar.startM ≤ s → 2 ≤ piece →
      P.maxLength - P.hookLength + tol < bar.endM - s →
      (topLoop P bar zones pp hsh heh fuel s piece).capped = true := by
  intro fuel
  induction fuel with
  | zero =>
    intro s piece hbs hp2 hinv
    have ht := tol_pos
    have he6 := eps6_lt_tol
    have hs : s < bar.endM - eps6 := by linarith
    simp [topLoop, if_pos hs]
  | succ n ih =>
    intro s piece hbs hp2 hinv
    have ht := tol_pos
    have he6 := eps6_lt_tol
    have hs : s < bar.endM - eps6 := by linarith
    have hrem : qmax (bar.endM - s) 0 = bar.endM - s := by
      rw [qmax_eq_max]; exact max_eq_left (by linarith)
    have husable : usableMaxOf P hsh heh piece (bar.endM - s) + tol <
        bar.endM - s := by
      rcases usableMaxOf_heh P hsh heh piece (bar.endM - s) (by omega) hheh
          hmh with ⟨hr, he⟩ | ⟨hr, he⟩
      · rw [he]; linarith
      · rw [he]; linarith
    have hCle := topCandidate_le2 P bar zones pp hsh heh s piece (by omega)
    rw [hrem] at hCle
    have hCt : topCandidate P bar zones pp hsh heh s piece <
        bar.endM - tol := by
      have h1 := qmin_le_left (usableMaxOf P hsh heh piece (bar.endM - s))
        (bar.endM - s)
      linarith
    have hE : topSegmentEnd P bar zones pp hsh heh s piece <
        bar.endM - tol := by
      simp only [topSegmentEnd]
      rw [if_neg (not_le.mpr hCt)]
      rcases adjustSegmentEnd_cases s
          (topCandidate P bar zones pp hsh heh s piece) P.spliceLength
          zones with ha | ⟨ha1, -⟩
      · rw [ha]; exact hCt
      · linarith
    have hE1 : s < topSegmentEnd P bar zones pp hsh heh s piece :=
      (topSegmentEnd_bounds P bar zones pp hsh heh s piece hL hmax hs).1
    cases hstep : topStep P bar zones pp hsh heh s piece with
    | halt segs joints =>
      exfalso
      obtain ⟨hj, hcase⟩ := topStep_halt_inv hstep
      rcases hcase with hnil | ⟨hseg, hpos, hlast⟩
      · rcases topStep_nil_cases hstep hnil with h0 | h0
        · rw [hrem] at h0
          linarith
        · linarith
      · linarith
    | cont seg joint next =>
      simp only [topLoop, if_pos hs, hstep]
      obtain ⟨-, -, hnext, -, -⟩ := topStep_cont_inv hstep
      have hnb : bar.startM ≤ next := by rw [hnext]; exact le_qmax_left _ _
      have hinv' : P.maxLength - P.hookLength + tol < bar.endM - next := by
        rw [hnext]
        rcases qmax_cases bar.startM
            (topSegmentEnd P bar zones pp hsh heh s piece - P.spliceLength)
          with h | h
        · rw [h]; linarith
        · rw [h]; linarith
      exact ih next (piece + 1) hnb (by omega) hinv'


/-- The bottom-strategy analogue of `topLoop_stuck` (no prohibited zones). -/
theorem bottomLoop_stuck (P : SegParams) (bar : RebarDetail) (ft : ℚ)
    (hsh heh : Bool)
    (hL : 0 < P.spliceLength) (hmax : 0 < P.maxLength)
    (hheh : heh = true) (hmh : 0 < P.maxLength - P.hookLength)
    (hLm2 : P.maxLength - P.hookLength ≤ P.spliceLength) :
    ∀ (fuel : ℕ) (s : ℚ) (piece : ℕ), bar.startM ≤ s → 2 ≤ piece →
      P.maxLength - P.hookLength + tol < bar.endM - s →
      (bottomLoop P bar [] ft hsh heh fuel s piece).capped = true := by
  intro fuel
  induction fuel with
  | zero =>
    intro s piece hbs hp2 hinv
    have ht := tol_pos
    have he6 := eps6_lt_tol
    have hs : s < bar.endM - eps6 := by linarith
    simp [bottomLoop, if_pos hs]
  | succ n ih =>
    intro s piece hbs hp2 hinv
    have ht := tol_pos
    have he6 := eps6_lt_tol
    have hs : s < bar.endM - eps6 := by linarith
    have hrem : qmax (bar.endM - s) 0 = bar.endM - s := by
      rw [qmax_eq_max]; exact max_eq_left (by linarith)
    have husable : usableMaxOf P hsh heh piece (bar.endM - s) + tol <
        bar.endM - s := by
      rcases usableMaxOf_heh P hsh heh piece (bar.endM - s) (by omega) hheh
          hmh with ⟨hr, he⟩ | ⟨hr, he⟩
      · rw [he]; linarith
      · rw [he]; linarith
    have hc0t : bottomCandidate0 P bar ft hsh heh s piece <
        bar.endM - tol := by
      rw [bottomCandidate0_eq2 P bar ft hsh heh s piece (by omega), hrem]
      have h1 := qmin_le_left
        (s + qmin (usableMaxOf P hsh heh piece (bar.endM - s))
          (bar.endM - s)) bar.endM
      have h2 := qmin_le_left (usableMaxOf P hsh heh piece (bar.endM - s))
        (bar.endM - s)
      linarith
    have hc0s : s < bottomCandidate0 P bar ft hsh heh s piece := by
      rw [bottomCandidate0_eq2 P bar ft hsh heh s piece (by omega), hrem]
      have hU := usableMaxOf_pos P hsh heh piece (bar.endM - s) hmax
      exact lt_qmin (by
        have := lt_qmin (show (0:ℚ) < usableMaxOf P hsh heh piece
            (bar.endM - s) from hU) (show (0:ℚ) < bar.endM - s by linarith)
        linarith) (by linarith)
    have hnle : ¬(bar.endM - tol ≤ bottomCandidate0 P bar ft hsh heh s piece) :=
      not_le.mpr hc0t
    have hEeq : bottomSegmentEnd P bar [] ft hsh heh s piece =
        bottomCandidate0 P bar ft hsh heh s piece := by
      simp only [bottomSegmentEnd, bottomCandidate_nil]
      rw [if_neg (by simp [hnle])]
    cases hstep : bottomStep P bar [] ft hsh heh s piece with
    | halt segs joints =>
      exfalso
      obtain ⟨hj, hcase⟩ := bottomStep_halt_inv hstep
      rcases hcase with hnil | ⟨hseg, hpos, hlast⟩
      · rcases bottomStep_nil_cases hstep hnil with h0 | h0
        · rw [hrem] at h0
          linarith
        · rw [hEeq] at h0
          linarith
      · rw [hEeq] at hlast
        linarith
    | cont seg joint next =>
      simp only [bottomLoop, if_pos hs, hstep]
      obtain ⟨-, -, hnext, -, -⟩ := bottomStep_cont_inv hstep
      have hnb : bar.startM ≤ next := by rw [hnext]; exact le_qmax_left _ _
      have hinv' : P.maxLength - P.hookLength + tol < bar.endM - next := by
        rw [hnext, hEeq]
        rcases qmax_cases bar.startM
            (bottomCandidate0 P bar ft hsh heh s piece - P.spliceLength)
          with h | h
        · rw [h]; linarith
        · rw [h]; linarith
      exact ih next (piece + 1) hnb (by omega) hinv'

/-- Fuel induction for the top-strategy loop: if the cap did not fire,
the produced segments form a chain from `s` to the bar end through the
recorded joints. -/
theorem topLoop_chain (P : SegParams) (bar : RebarDetail)
    (zones : List ProhibitedZone) (pp hsh heh : Bool)
    (hL : 0 < P.spliceLength)
    (hLmax : P.spliceLength < P.maxLength) :
    ∀ (fuel : ℕ) (s : ℚ) (piece : ℕ),
      bar.startM ≤ s → 1 ≤ piece → (2 ≤ piece ∨ s = bar.startM) →
      s < bar.endM - eps6 →
      (topLoop P bar zones pp hsh heh fuel s piece).capped = false →
      ∃ hd tl,
        (topLoop P bar zones pp hsh heh fuel s piece).segs = hd :: tl ∧
        hd.startM = s ∧ s < hd.endM ∧ hd.endM ≤ bar.endM ∧
        (2 ≤ piece → s + P.spliceLength ≤ hd.endM ∨ hd.endM = bar.endM) ∧
        ChainSegs bar hd tl
          (topLoop P bar zones pp hsh heh fuel s piece).joints := by
  have hmax : 0 < P.maxLength := by linarith
  intro fuel
  induction fuel with
  | zero =>
    intro s piece hbs hp1le hp hs hcap
    simp only [topLoop, if_pos hs] at hcap
    simp at hcap
  | succ n ih =>
    intro s piece hbs hp1le hp hs hcap
    have ht := tol_pos
    simp only [topLoop, if_pos hs] at hcap ⊢
    cases hstep : topStep P bar zones pp hsh heh s piece with
    | halt segs joints =>
      simp only [hstep] at hcap ⊢
      obtain ⟨hj, hcase⟩ := topStep_halt_inv hstep
      rcases hcase with hnil | ⟨hseg, hpos, hlast⟩
      · exfalso
        rcases topStep_nil_cases hstep hnil with h0 | h0
        · have h1 := le_qmax_left (bar.endM - s) 0
          have h2 := eps6_pos
          linarith
        · obtain ⟨hE1, -, -, -⟩ := topSegmentEnd_bounds P bar zones pp hsh
            heh s piece hL hmax hs
          linarith
      · subst hseg
        subst hj
        obtain ⟨hE1, hE2, hE3, hE4⟩ := topSegmentEnd_bounds P bar zones pp
          hsh heh s piece hL hmax hs
        have hEeq : topSegmentEnd P bar zones pp hsh heh s piece = bar.endM := by
          rcases hE3 with h | h
          · exact h
          · exfalso
            have := eps6_lt_tol
            linarith
        refine ⟨_, [], rfl, rfl, hE1, hE2, fun hp2 => Or.inr hEeq, ?_⟩
        show (mkSegment bar piece s
          (topSegmentEnd P bar zones pp hsh heh s piece) "Superior").endM =
            bar.endM
        exact hEeq
    | cont seg joint next =>
      simp only [hstep] at hcap ⊢
      obtain ⟨hseg, hjoint, hnext, hpos, hnlast⟩ := topStep_cont_inv hstep
      obtain ⟨hE1, hE2, hE3, hE4⟩ := topSegmentEnd_bounds P bar zones pp hsh
        heh s piece hL hmax hs
      have hElt := lt_of_not_le hnlast
      have hsE := not_le.mp hpos
      have hEtol : topSegmentEnd P bar zones pp hsh heh s piece <
          bar.endM - tol := by
        rcases hE3 with h | h
        · exfalso
          rw [h] at hnlast
          exact hnlast (by linarith [eps6_pos])
        · exact h
      have hJr := le_qmax_right bar.startM
        (topSegmentEnd P bar zones pp hsh heh s piece - P.spliceLength)
      have hJl := le_qmax_left bar.startM
        (topSegmentEnd P bar zones pp hsh heh s piece - P.spliceLength)
      have hnb : bar.startM ≤ next := by rw [hnext]; exact hJl
      have hrem : qmax (bar.endM - s) 0 = bar.endM - s := by
        rw [qmax_eq_max]
        exact max_eq_left (by linarith [eps6_pos])
      -- the usable maximum must have room for the splice, or the run caps
      have hus : 2 ≤ piece →
          P.spliceLength ≤ usableMaxOf P hsh heh piece (bar.endM - s) := by
        intro hp2
        rcases le_or_lt P.spliceLength
            (usableMaxOf P hsh heh piece (bar.endM - s)) with hok | hbad
        · exact hok
        · exfalso
          rcases usableMaxOf_cases P hsh heh piece (bar.endM - s) hp2 with
            heq | ⟨hheh, hrle, heq, hmh⟩
          · rw [heq] at hbad
            linarith
          · rw [heq] at hbad
            rcases le_or_lt (bar.endM - s)
                (P.maxLength - P.hookLength + tol) with hnear | hfar
            · have hsnap : bar.endM - tol ≤ s +
                  qmin (usableMaxOf P hsh heh piece (qmax (bar.endM - s) 0))
                    (qmax (bar.endM - s) 0) := by
                rw [hrem, heq]
                rcases qmin_cases (P.maxLength - P.hookLength)
                  (bar.endM - s) with hq | hq <;> rw [hq] <;> linarith
              have hEeq := topSegmentEnd_snap P bar zones pp hsh heh s piece
                (by omega) hsnap
              rw [hEeq] at hnlast
              exact hnlast (by linarith [eps6_pos])
            · have hstuck := topLoop_stuck P bar zones pp hsh heh hL hmax
                hheh hmh (le_of_lt hbad) n next (piece + 1) hnb (by omega)
                (by
                  rw [hnext]
                  rcases qmax_cases bar.startM
                      (topSegmentEnd P bar zones pp hsh heh s piece -
                        P.spliceLength) with h | h
                  · rw [h]; linarith
                  · rw [h]; linarith)
              exact Bool.noConfusion (hstuck.symm.trans hcap)
      have hnlt : next < bar.endM - eps6 := by
        rw [hnext]
        exact qmax_lt (by linarith) (by linarith)
      have hsJ : s ≤ next := by
        rcases hp with hp2 | hp1
        · have hx : s + P.spliceLength ≤
              topSegmentEnd P bar zones pp hsh heh s piece := by
            rcases hE4 hp2 (hus hp2) with h | h
            · exact h
            · exfalso
              rw [h] at hElt
              linarith [eps6_pos]
          rw [hnext]
          have := le_qmax_right bar.startM
            (topSegmentEnd P bar zones pp hsh heh s piece - P.spliceLength)
          linarith
        · rw [hnext, hp1]
          exact le_qmax_left _ _
      have hJE : next < topSegmentEnd P bar zones pp hsh heh s piece := by
        rw [hnext]
        exact qmax_lt (by linarith) (by linarith)
      obtain ⟨hd, tl, hsegs, hhd1, hhd2, hhd3, hhd4, hchain⟩ :=
        ih next (piece + 1) hnb (by omega) (Or.inl (show 2 ≤ piece + 1 by omega))
          hnlt hcap
      have hEhd : topSegmentEnd P bar zones pp hsh heh s piece ≤ hd.endM := by
        rcases hhd4 (show 2 ≤ piece + 1 by omega) with h | h
        · rw [hnext] at h
          linarith
        · rw [h]
          exact hE2
      refine ⟨seg, hd :: tl, by rw [hsegs], by rw [hseg]; exact rfl, ?_, ?_, ?_, ?_⟩
      · rw [hseg]
        show s < topSegmentEnd P bar zones pp hsh heh s piece
        linarith
      · rw [hseg]
        exact hE2
      · intro hp2
        rw [hseg]
        show s + P.spliceLength ≤
            topSegmentEnd P bar zones pp hsh heh s piece ∨
          topSegmentEnd P bar zones pp hsh heh s piece = bar.endM
        rcases hE4 hp2 (hus hp2) with h | h
        · exact Or.inl h
        · exact Or.inr h
      · refine ⟨⟨?_, ?_, ?_, ?_, ?_, ?_⟩, ?_, hchain⟩
        · rw [hjoint, hhd1, hnext]
        · rw [hjoint, hseg]
          exact rfl
        · rw [hjoint, hseg, hhd1, hnext]
          exact rfl
        · rw [hseg, hhd1]
          exact hsJ
        · rw [hhd1, hseg]
          exact hJE
        · rw [hseg]
          exact hEhd
        · rw [hseg]
          exact hE2

/-- With a positive first-segment target, the bottom initial candidate
lies strictly after the current start (any piece index). -/
theorem bottomCandidate0_pos (P : SegParams) (bar : RebarDetail) (ft : ℚ)
    (hsh heh : Bool) (s : ℚ) (piece : ℕ)
    (hmax : 0 < P.maxLength) (hs : s < bar.endM - eps6) (hft : 0 < ft) :
    s < bottomCandidate0 P bar ft hsh heh s piece := by
  have he := eps6_pos
  have hrem : qmax (bar.endM - s) 0 = bar.endM - s := by
    rw [qmax_eq_max]; exact max_eq_left (by linarith)
  have hU := usableMaxOf_pos P hsh heh piece (bar.endM - s) hmax
  simp only [bottomCandidate0, hrem]
  set U := usableMaxOf P hsh heh piece (bar.endM - s) with hUdef
  have hSLpos : 0 < (if piece = 1 then qmin (qmin U (bar.endM - s)) ft
      else qmin U (bar.endM - s)) := by
    split
    · exact lt_qmin (lt_qmin (by linarith) (by linarith)) hft
    · exact lt_qmin (by linarith) (by linarith)
  exact lt_qmin (by linarith) (by linarith)




/-- Bounds for the bottom segment end with no prohibited zones: strictly
after the start, at most the bar end, exactly the bar end or clear of it by
the tolerance, and — from the second piece on, when the usable maximum has
room for the splice — leaving room for a full splice unless it is the bar
end. -/
theorem bottomNil_facts (P : SegParams) (bar : RebarDetail) (ft : ℚ)
    (hsh heh : Bool) (s : ℚ) (piece : ℕ)
    (hL : 0 < P.spliceLength) (hmax : 0 < P.maxLength)
    (hs : s < bar.endM - eps6) (hft : 0 < ft) :
    s < bottomSegmentEnd P bar [] ft hsh heh s piece ∧
    bottomSegmentEnd P bar [] ft hsh heh s piece ≤ bar.endM ∧
    (bottomSegmentEnd P bar [] ft hsh heh s piece = bar.endM ∨
      bottomSegmentEnd P bar [] ft hsh heh s piece < bar.endM - tol) ∧
    (2 ≤ piece →
      P.spliceLength ≤ usableMaxOf P hsh heh piece (bar.endM - s) →
      s + P.spliceLength ≤ bottomSegmentEnd P bar [] ft hsh heh s piece ∨
      bottomSegmentEnd P bar [] ft hsh heh s piece = bar.endM) := by
  have ht := tol_pos
  have he := eps6_pos
  have hrem : qmax (bar.endM - s) 0 = bar.endM - s := by
    rw [qmax_eq_max]; exact max_eq_left (by linarith)
  have hc0le := bottomCandidate0_le P bar ft hsh heh s piece
  have hc0pos := bottomCandidate0_pos P bar ft hsh heh s piece hmax hs hft
  simp only [bottomSegmentEnd, bottomCandidate_nil]
  by_cases hl0 : bar.endM - tol ≤ bottomCandidate0 P bar ft hsh heh s piece
  · rw [if_pos (by simp [hl0])]
    exact ⟨by linarith, le_refl _, Or.inl rfl, fun _ _ => Or.inr rfl⟩
  · rw [if_neg (by simp [hl0])]
    refine ⟨hc0pos, hc0le, Or.inr (lt_of_not_le hl0), fun hp2 hus => ?_⟩
    rw [bottomCandidate0_eq2 P bar ft hsh heh s piece (by omega), hrem]
    rcases qmin_cases
        (s + qmin (usableMaxOf P hsh heh piece (bar.endM - s))
          (bar.endM - s)) bar.endM with h | h
    · rw [h]
      rcases qmin_cases (usableMaxOf P hsh heh piece (bar.endM - s))
        (bar.endM - s) with h2 | h2
      · left; rw [h2]; linarith
      · right; rw [h2]; ring
    · right; rw [h]

/-- Fuel induction for the bottom-strategy loop with no prohibited
zones: if the cap did not fire, the produced segments form a chain from
`s` to the bar end through the recorded joints. -/
theorem bottomLoop_chain (P : SegParams) (bar : RebarDetail) (ft : ℚ)
    (hsh heh : Bool)
    (hL : 0 < P.spliceLength)
    (hLmax : P.spliceLength < P.maxLength) (hft : 0 < ft) :
    ∀ (fuel : ℕ) (s : ℚ) (piece : ℕ),
      bar.startM ≤ s → 1 ≤ piece → (2 ≤ piece ∨ s = bar.startM) →
      s < bar.endM - eps6 →
      (bottomLoop P bar [] ft hsh heh fuel s piece).capped = false →
      ∃ hd tl,
        (bottomLoop P bar [] ft hsh heh fuel s piece).segs = hd :: tl ∧
        hd.startM = s ∧ s < hd.endM ∧ hd.endM ≤ bar.endM ∧
        (2 ≤ piece → s + P.spliceLength ≤ hd.endM ∨ hd.endM = bar.endM) ∧
        ChainSegs bar hd tl
          (bottomLoop P bar [] ft hsh heh fuel s piece).joints := by
  have hmax : 0 < P.maxLength := by linarith
  intro fuel
  induction fuel with
  | zero =>
    intro s piece hbs hp1le hp hs hcap
    simp only [bottomLoop, if_pos hs] at hcap
    simp at hcap
  | succ n ih =>
    intro s piece hbs hp1le hp hs hcap
    have ht := tol_pos
    simp only [bottomLoop, if_pos hs] at hcap ⊢
    cases hstep : bottomStep P bar [] ft hsh heh s piece with
    | halt segs joints =>
      simp only [hstep] at hcap ⊢
      obtain ⟨hj, hcase⟩ := bottomStep_halt_inv hstep
      rcases hcase with hnil | ⟨hseg, hpos, hlast⟩
      · exfalso
        rcases bottomStep_nil_cases hstep hnil with h0 | h0
        · have h1 := le_qmax_left (bar.endM - s) 0
          have h2 := eps6_pos
          linarith
        · obtain ⟨hE1, -, -, -⟩ := bottomNil_facts P bar ft hsh heh s piece
            hL hmax hs hft
          linarith
      · subst hseg
        subst hj
        obtain ⟨hE1, hE2, hE3, hE4⟩ := bottomNil_facts P bar ft hsh heh s
          piece hL hmax hs hft
        have hEeq : bottomSegmentEnd P bar [] ft hsh heh s piece =
            bar.endM := by
          rcases hE3 with h | h
          · exact h
          · exfalso
            have := eps6_lt_tol
            linarith
        refine ⟨_, [], rfl, rfl, hE1, hE2, fun hp2 => Or.inr hEeq, ?_⟩
        show (mkSegment bar piece s
          (bottomSegmentEnd P bar [] ft hsh heh s piece) "Inferior").endM =
            bar.endM
        exact hEeq
    | cont seg joint next =>
      simp only [hstep] at hcap ⊢
      obtain ⟨hseg, hjoint, hnext, hpos, hnlast⟩ := bottomStep_cont_inv hstep
      obtain ⟨hE1, hE2, hE3, hE4⟩ := bottomNil_facts P bar ft hsh heh s piece
        hL hmax hs hft
      have hElt := lt_of_not_le hnlast
      have hsE := not_le.mp hpos
      have hEtol : bottomSegmentEnd P bar [] ft hsh heh s piece <
          bar.endM - tol := by
        rcases hE3 with h | h
        · exfalso
          rw [h] at hnlast
          exact hnlast (by linarith [eps6_pos])
        · exact h
      have hJr := le_qmax_right bar.startM
        (bottomSegmentEnd P bar [] ft hsh heh s piece - P.spliceLength)
      have hJl := le_qmax_left bar.startM
        (bottomSegmentEnd P bar [] ft hsh heh s piece - P.spliceLength)
      have hnb : bar.startM ≤ next := by rw [hnext]; exact hJl
      have hrem : qmax (bar.endM - s) 0 = bar.endM - s := by
        rw [qmax_eq_max]
        exact max_eq_left (by linarith [eps6_pos])
      have hus : 2 ≤ piece →
          P.spliceLength ≤ usableMaxOf P hsh heh piece (bar.endM - s) := by
        intro hp2
        rcases le_or_lt P.spliceLength
            (usableMaxOf P hsh heh piece (bar.endM - s)) with hok | hbad
        · exact hok
        · exfalso
          rcases usableMaxOf_cases P hsh heh piece (bar.endM - s) hp2 with
            heq | ⟨hheh, hrle, heq, hmh⟩
          · rw [heq] at hbad
            linarith
          · rw [heq] at hbad
            rcases le_or_lt (bar.endM - s)
                (P.maxLength - P.hookLength + tol) with hnear | hfar
            · have hsnap : bar.endM - tol ≤
                  bottomCandidate0 P bar ft hsh heh s piece := by
                rw [bottomCandidate0_eq2 P bar ft hsh heh s piece (by omega),
                  hrem, heq]
                refine le_qmin ?_ (by linarith)
                rcases qmin_cases (P.maxLength - P.hookLength)
                  (bar.endM - s) with hq | hq <;> rw [hq] <;> linarith
              have hEeq : bottomSegmentEnd P bar [] ft hsh heh s piece =
                  bar.endM := by
                simp only [bottomSegmentEnd, bottomCandidate_nil]
                rw [if_pos (by simp [hsnap])]
              rw [hEeq] at hnlast
              exact hnlast (by linarith [eps6_pos])
            · have hstuck := bottomLoop_stuck P bar ft hsh heh hL hmax
                hheh hmh (le_of_lt hbad) n next (piece + 1) hnb (by omega)
                (by
                  rw [hnext]
                  rcases qmax_cases bar.startM
                      (bottomSegmentEnd P bar [] ft hsh heh s piece -
                        P.spliceLength) with h | h
                  · rw [h]; linarith
                  · rw [h]; linarith)
              exact Bool.noConfusion (hstuck.symm.trans hcap)
      have hnlt : next < bar.endM - eps6 := by
        rw [hnext]
        exact qmax_lt (by linarith) (by linarith)
      have hsJ : s ≤ next := by
        rcases hp with hp2 | hp1
        · have hx : s + P.spliceLength ≤
              bottomSegmentEnd P bar [] ft hsh heh s piece := by
            rcases hE4 hp2 (hus hp2) with h | h
            · exact h
            · exfalso
              rw [h] at hElt
              linarith [eps6_pos]
          rw [hnext]
          linarith
        · rw [hnext, hp1]
          exact le_qmax_left _ _
      have hJE : next < bottomSegmentEnd P bar [] ft hsh heh s piece := by
        rw [hnext]
        exact qmax_lt (by linarith) (by linarith)
      obtain ⟨hd, tl, hsegs, hhd1, hhd2, hhd3, hhd4, hchain⟩ :=
        ih next (piece + 1) hnb (by omega)
          (Or.inl (show 2 ≤ piece + 1 by omega)) hnlt hcap
      have hEhd : bottomSegmentEnd P bar [] ft hsh heh s piece ≤
          hd.endM := by
        rcases hhd4 (show 2 ≤ piece + 1 by omega) with h | h
        · rw [hnext] at h
          linarith
        · rw [h]
          exact hE2
      refine ⟨seg, hd :: tl, by rw [hsegs], by rw [hseg]; exact rfl,
        ?_, ?_, ?_, ?_⟩
      · rw [hseg]
        show s < bottomSegmentEnd P bar [] ft hsh heh s piece
        linarith
      · rw [hseg]
        exact hE2
      · intro hp2
        rw [hseg]
        show s + P.spliceLength ≤
            bottomSegmentEnd P bar [] ft hsh heh s piece ∨
          bottomSegmentEnd P bar [] ft hsh heh s piece = bar.endM
        rcases hE4 hp2 (hus hp2) with h | h
        · exact Or.inl h
        · exact Or.inr h
      · refine ⟨⟨?_, ?_, ?_, ?_, ?_, ?_⟩, ?_, hchain⟩
        · rw [hjoint, hhd1, hnext]
        · rw [hjoint, hseg]
          exact rfl
        · rw [hjoint, hseg, hhd1, hnext]
          exact rfl
        · rw [hseg, hhd1]
          exact hsJ
        · rw [hhd1, hseg]
          exact hJE
        · rw [hseg]
          exact hEhd
        · rw [hseg]
          exact hE2

theorem chainSegs_len (bar : RebarDetail) :
    ∀ (tl : List RebarDetail) (a : RebarDetail) (joints : List Splice),
      ChainSegs bar a tl joints → tl.length = joints.length := by
  intro tl
  induction tl with
  | nil =>
    intro a joints h
    cases joints with
    | nil => rfl
    | cons j js => exact False.elim h
  | cons b tl ih =>
    intro a joints h
    cases joints with
    | nil => exact False.elim h
    | cons j js =>
      have h' : JointLink a b j ∧ a.endM ≤ bar.endM ∧ ChainSegs bar b tl js := h
      simp only [List.length_cons]
      rw [ih b js h'.2.2]

theorem chainSegs_last (bar : RebarDetail) :
    ∀ (tl : List RebarDetail) (a : RebarDetail) (joints : List Splice),
      ChainSegs bar a tl joints →
      ∃ lst, (a :: tl).getLast? = some lst ∧ lst.endM = bar.endM := by
  intro tl
  induction tl with
  | nil =>
    intro a joints h
    cases joints with
    | nil =>
      have he : a.endM = bar.endM := h
      exact ⟨a, rfl, he⟩
    | cons j js => exact False.elim h
  | cons b tl ih =>
    intro a joints h
    cases joints with
    | nil => exact False.elim h
    | cons j js =>
      have h' : JointLink a b j ∧ a.endM ≤ bar.endM ∧ ChainSegs bar b tl js := h
      obtain ⟨lst, hl, he⟩ := ih b js h'.2.2
      refine ⟨lst, ?_, he⟩
      rw [List.getLast?_cons_cons]
      exact hl

theorem chainSegs_sorted (bar : RebarDetail) :
    ∀ (tl : List RebarDetail) (a : RebarDetail) (joints : List Splice),
      ChainSegs bar a tl joints →
      List.Chain' (fun u v => u.startM ≤ v.startM) (a :: tl) := by
  intro tl
  induction tl with
  | nil => intro a joints h; exact List.chain'_singleton a
  | cons b tl ih =>
    intro a joints h
    cases joints with
    | nil => exact False.elim h
    | cons j js =>
      have h' : JointLink a b j ∧ a.endM ≤ bar.endM ∧ ChainSegs bar b tl js := h
      exact List.chain'_cons.mpr ⟨h'.1.2.2.2.1, ih b js h'.2.2⟩

theorem chainSegs_joint_pos (bar : RebarDetail) :
    ∀ (tl : List RebarDetail) (a : RebarDetail) (joints : List Splice),
      ChainSegs bar a tl joints → ∀ j ∈ joints, 0 < j.sLen := by
  intro tl
  induction tl with
  | nil =>
    intro a joints h
    cases joints with
    | nil => intro j hj; exact absurd hj (List.not_mem_nil j)
    | cons j js => exact False.elim h
  | cons b tl ih =>
    intro a joints h
    cases joints with
    | nil => exact False.elim h
    | cons j js =>
      have h' : JointLink a b j ∧ a.endM ≤ bar.endM ∧ ChainSegs bar b tl js := h
      intro j2 hj2
      rcases List.mem_cons.mp hj2 with rfl | hmem
      · obtain ⟨-, -, h3, -, h5, -⟩ := h'.1
        rw [h3]
        linarith
      · exact ih b js h'.2.2 j2 hmem

theorem chainSegs_cover (bar : RebarDetail) :
    ∀ (tl : List RebarDetail) (a : RebarDetail) (joints : List Splice),
      ChainSegs bar a tl joints → ∀ x : ℚ,
      (a.startM ≤ x ∧ x ≤ bar.endM) ↔
        ∃ seg ∈ a :: tl, seg.startM ≤ x ∧ x ≤ seg.endM := by
  intro tl
  induction tl with
  | nil =>
    intro a joints h
    cases joints with
    | nil =>
      have he : a.endM = bar.endM := h
      intro x
      constructor
      · rintro ⟨h1, h2⟩
        refine ⟨a, List.mem_cons_self a [], h1, ?_⟩
        rw [he]
        exact h2
      · rintro ⟨seg, hmem, h1, h2⟩
        have hseg := List.mem_singleton.mp hmem
        subst hseg
        exact ⟨h1, by rw [← he]; exact h2⟩
    | cons j js => exact False.elim h
  | cons b tl ih =>
    intro a joints h
    cases joints with
    | nil => exact False.elim h
    | cons j js =>
      have h' : JointLink a b j ∧ a.endM ≤ bar.endM ∧ ChainSegs bar b tl js := h
      obtain ⟨hj, hle, hc⟩ := h'
      obtain ⟨-, -, -, h4, h5, h6⟩ := hj
      intro x
      have ihx := ih b js hc x
      constructor
      · rintro ⟨h1, h2⟩
        by_cases hxa : x ≤ a.endM
        · exact ⟨a, List.mem_cons_self a _, h1, hxa⟩
        · have hbx : b.startM ≤ x := by
            have := not_le.mp hxa
            linarith
          obtain ⟨seg, hmem, hseg⟩ := ihx.mp ⟨hbx, h2⟩
          exact ⟨seg, List.mem_cons_of_mem a hmem, hseg⟩
      · rintro ⟨seg, hmem, h1, h2⟩
        rcases List.mem_cons.mp hmem with rfl | hmem2
        · exact ⟨h1, le_trans h2 hle⟩
        · have hx := ihx.mpr ⟨seg, hmem2, h1, h2⟩
          exact ⟨le_trans h4 hx.1, hx.2⟩

/-- A chained production anchored at the bar start satisfies the full tiling
property. -/
theorem tilesBar_of_chain (bar : RebarDetail) (out : LoopOut)
    (hd : RebarDetail) (tl : List RebarDetail)
    (hsegs : out.segs = hd :: tl) (hstart : hd.startM = bar.startM)
    (hpos : bar.startM < hd.endM)
    (hchain : ChainSegs bar hd tl out.joints) : TilesBar bar out := by
  refine ⟨⟨hd, tl, hsegs, hstart, hpos, hchain⟩, ?_, ?_, ?_, ?_, ?_⟩
  · rw [hsegs]
    exact chainSegs_sorted bar tl hd out.joints hchain
  · obtain ⟨lst, hl, he⟩ := chainSegs_last bar tl hd out.joints hchain
    refine ⟨lst, ?_, he⟩
    rw [hsegs]
    exact hl
  · rw [hsegs, List.length_cons, chainSegs_len bar tl hd out.joints hchain]
  · exact chainSegs_joint_pos bar tl hd out.joints hchain
  · intro x
    rw [hsegs, ← hstart]
    exact chainSegs_cover bar tl hd out.joints hchain x

/-- Attaching splices changes only the `splices` field: the geometry of the
returned segments matches the produced segments one for one. -/
theorem attachSplices_geom (segments : List RebarDetail)
    (joints : List Splice) :
    (attachSplices segments joints).map (fun g => (g.startM, g.endM)) =
      segments.map (fun g => (g.startM, g.endM)) := by
  rw [attachSplices, List.map_map]
  nth_rewrite 2 [← List.enum_map_snd segments]
  rw [List.map_map]
  exact rfl

/-- C1 (amended): whenever the `safety_counter < 100` cap does not fire,
a bar long enough to enter the loop with `0 < splice_length < max_length`
(exactly what the entry guards ensure for a bar they hand to a strategy) is
tiled exactly by the produced segments — by the top strategy with any
prohibited zones, and by the bottom strategy with no prohibited zones (with
zones an uncapped bottom run can stop short of the bar end; see the
counterexample): the first segment starts at `bar.start`, the last ends at
`bar.end`, consecutive segments overlap exactly in the recorded joints
(positive length), the list is sorted by start, and the union of the
segment intervals is `[bar.start, bar.end]`; attaching the splices
preserves every segment's geometry. -/
theorem c1_tiling (P : SegParams) (bar : RebarDetail)
    (zones : List ProhibitedZone) (pp : Bool) (ratio : ℚ)
    (hL : 0 < P.spliceLength)
    (hLmax : P.spliceLength < P.maxLength)
    (hbar : bar.startM < bar.endM - eps6) :
    ((splitTopBarCore P bar zones pp).capped = false →
      TilesBar bar (splitTopBarCore P bar zones pp) ∧
      (splitTopBar P bar zones pp).map (fun g => (g.startM, g.endM)) =
        (splitTopBarCore P bar zones pp).segs.map
          (fun g => (g.startM, g.endM))) ∧
    ((splitBottomBarCore P bar [] ratio).capped = false →
      TilesBar bar (splitBottomBarCore P bar [] ratio) ∧
      (splitBottomBar P bar [] ratio).map (fun g => (g.startM, g.endM)) =
        (splitBottomBarCore P bar [] ratio).segs.map
          (fun g => (g.startM, g.endM))) := by
  constructor
  · intro hcap
    simp only [splitTopBar, splitTopBarCore] at hcap ⊢
    obtain ⟨hd, tl, hsegs, h1, h2, h3, h4, hchain⟩ :=
      topLoop_chain P bar zones pp (hasStartHookOf P bar)
        (hasEndHookOf P bar) hL hLmax 100 bar.startM 1 (le_refl _)
        (by omega) (Or.inr rfl) hbar hcap
    constructor
    · exact tilesBar_of_chain bar _ hd tl hsegs h1 h2 hchain
    · simp only [hsegs, List.isEmpty_cons, Bool.false_eq_true, if_false]
      exact attachSplices_geom _ _
  · intro hcap
    have hft : 0 < firstSegmentTarget (qmax (bar.endM - bar.startM) 0)
        P.maxLength P.spliceLength ratio := by
      simp only [firstSegmentTarget]
      apply lt_qmin
      · calc (0 : ℚ) < P.spliceLength * 1.5 := by linarith
          _ ≤ _ := le_qmax_right _ _
      · have hq1 := le_qmax_left (bar.endM - bar.startM) 0
        have hq2 := eps6_pos
        linarith
    simp only [splitBottomBar, splitBottomBarCore] at hcap ⊢
    obtain ⟨hd, tl, hsegs, h1, h2, h3, h4, hchain⟩ :=
      bottomLoop_chain P bar
        (firstSegmentTarget (qmax (bar.endM - bar.startM) 0) P.maxLength
          P.spliceLength ratio)
        (hasStartHookOf P bar) (hasEndHookOf P bar) hL hLmax hft 100
        bar.startM 1 (le_refl _) (by omega) (Or.inr rfl) hbar hcap
    constructor
    · exact tilesBar_of_chain bar _ hd tl hsegs h1 h2 hchain
    · simp only [hsegs, List.isEmpty_cons, Bool.false_eq_true, if_false]
      exact attachSplices_geom _ _

/-- Witness: the amended tiling theorem applied to the Scenario B fixture. -/
theorem c1_tiling_witness :
    (0 < paramsB.spliceLength ∧
      paramsB.spliceLength < paramsB.maxLength ∧
      barB.startM < barB.endM - eps6) ∧
    (((splitTopBarCore paramsB barB [] false).capped = false →
      TilesBar barB (splitTopBarCore paramsB barB [] false) ∧
      (splitTopBar paramsB barB [] false).map (fun g => (g.startM, g.endM)) =
        (splitTopBarCore paramsB barB [] false).segs.map
          (fun g => (g.startM, g.endM))) ∧
    ((splitBottomBarCore paramsB barB [] 0).capped = false →
      TilesBar barB (splitBottomBarCore paramsB barB [] 0) ∧
      (splitBottomBar paramsB barB [] 0).map (fun g => (g.startM, g.endM)) =
        (splitBottomBarCore paramsB barB [] 0).segs.map
          (fun g => (g.startM, g.endM)))) :=
  ⟨⟨by with_unfolding_all decide, by with_unfolding_all decide,
    by with_unfolding_all decide⟩,
   c1_tiling paramsB barB [] false 0 (by with_unfolding_all decide)
     (by with_unfolding_all decide) (by with_unfolding_all decide)⟩

/-- On the `barC1` run, every loop body from the second piece on advances the
start by exactly `2.5` and ends its segment at `start + 3`, as long as the
remaining length keeps the body away from the final-segment branches. -/
theorem c1ce_step (s : ℚ) (piece : ℕ) (hp : 2 ≤ piece) (h0 : 0 ≤ s)
    (h1 : s ≤ 296.5) :
    ∃ seg joint, topStep paramsC1 barC1 [] false false false s piece =
      .cont seg joint (s + 2.5) ∧ seg.endM = s + 3 := by
  have hbe : barC1.endM = (300 : ℚ) := rfl
  have hrem : qmax ((300 : ℚ) - s) 0 = 300 - s := by
    rw [qmax_eq_max]
    exact max_eq_left (by linarith)
  have hU : usableMaxOf paramsC1 false false piece (300 - s) = 3 := by
    simp [usableMaxOf, paramsC1]
  have hC : topCandidate paramsC1 barC1 [] false false false s piece =
      s + 3 := by
    simp only [topCandidate, hbe, hrem, hU]
    rw [if_neg (by rintro ⟨hx, -⟩; exact Bool.noConfusion hx)]
    rw [if_neg (by rintro ⟨hx, -⟩; omega)]
    rw [show qmin 3 (300 - s) = 3 from by rw [qmin]; exact if_pos (by linarith)]
  have hE : topSegmentEnd paramsC1 barC1 [] false false false s piece =
      s + 3 := by
    simp only [topSegmentEnd, hC]
    rw [if_neg (not_le.mpr (by rw [hbe]; norm_num [tol]; linarith)), adjust_nil]
  have hq : qmax barC1.startM (s + 3 - paramsC1.spliceLength) = s + 2.5 := by
    rw [show barC1.startM = (0 : ℚ) from rfl,
      show paramsC1.spliceLength = (0.5 : ℚ) from rfl, qmax_eq_max]
    rw [max_eq_right (by linarith)]
    ring
  refine ⟨mkSegment barC1 piece s (s + 3) "Superior",
    ⟨s + 2.5, s + 3, s + 3 - (s + 2.5), "lap_splice_class_b", "top", false,
      none⟩, ?_, rfl⟩
  simp only [topStep, hrem, hE, hbe, hq]
  rw [if_neg (not_le.mpr (by linarith)), if_neg (not_le.mpr (by linarith)),
    if_neg (not_le.mpr (by norm_num [eps6]; linarith))]

/-- The concrete first loop body of the `barC1` run: the 60 % rule ends the
first piece at `1.8` and the next start is `1.3`. -/
theorem c1ce_first :
    topStep paramsC1 barC1 [] false false false 0 1 =
      .cont (mkSegment barC1 1 0 1.8 "Superior")
        ⟨1.3, 1.8, 0.5, "lap_splice_class_b", "top", false, none⟩ 1.3 := by
  with_unfolding_all decide

/-- On the `barC1` run, any number of loop bodies short of reaching the bar
end leaves the cap flag set and every produced segment ending at most
`299.5`, with exactly one segment per body. -/
theorem c1ce_loop :
    ∀ (fuel : ℕ) (s : ℚ) (piece : ℕ), 2 ≤ piece → 0 ≤ s →
      s + 2.5 * fuel ≤ 299 →
      (topLoop paramsC1 barC1 [] false false false fuel s piece).capped =
        true ∧
      (topLoop paramsC1 barC1 [] false false false fuel s piece).segs.length =
        fuel ∧
      ∀ seg ∈ (topLoop paramsC1 barC1 [] false false false fuel s piece).segs,
        seg.endM ≤ 299.5 := by
  intro fuel
  induction fuel with
  | zero =>
    intro s piece hp h0 h1
    have h1' : s ≤ 299 := by
      rw [Nat.cast_zero] at h1
      linarith
    have hs : s < barC1.endM - eps6 := by
      rw [show barC1.endM = (300 : ℚ) from rfl]
      norm_num [eps6]
      linarith
    simp only [topLoop, if_pos hs]
    exact ⟨by simp, by simp, fun seg h => absurd h (List.not_mem_nil seg)⟩
  | succ n ih =>
    intro s piece hp h0 h1
    have hcast : ((n + 1 : ℕ) : ℚ) = (n : ℚ) + 1 := by push_cast; ring
    have hn0 : (0 : ℚ) ≤ (n : ℚ) := Nat.cast_nonneg n
    rw [hcast] at h1
    have hs296 : s ≤ 296.5 := by linarith
    have hs : s < barC1.endM - eps6 := by
      rw [show barC1.endM = (300 : ℚ) from rfl]
      norm_num [eps6]
      linarith
    obtain ⟨seg, joint, hstep, hend⟩ := c1ce_step s piece hp h0 hs296
    simp only [topLoop, if_pos hs, hstep]
    have hih := ih (s + 2.5) (piece + 1) (by omega) (by linarith)
      (by linarith)
    refine ⟨hih.1, ?_, ?_⟩
    · simp only [List.length_cons, hih.2.1]
    · intro sg hsg
      rcases List.mem_cons.mp hsg with rfl | hmem
      · rw [hend]
        linarith
      · exact hih.2.2 sg hmem

/-- C1 counterexample, two independent violations.  (1) On the bar
`[0, 300]` with `max_length = 3` and `splice_length = 0.5` the
`safety_counter < 100` cap stops the top strategy early: it returns `100`
segments (so the bar is "actually split"), yet no returned segment reaches
the bar end `300`.  (2) On the bottom bar `[0, 5]` with one prohibited zone
the loop is *not* capped and the bar is split (the result is neither empty
nor the unsplit bar), yet the single returned segment stops at
`4.999999 < 5`: the first-piece safe-position scan keeps a stale
`is_last_segment` flag, so the loop ends within its `1e-6` margin without
snapping to the bar end.  In both cases the returned segments do not tile
`[bar.start, bar.end]`. -/
theorem c1_counterexample :
    (1 < (splitTopBar paramsC1 barC1 [] false).length ∧
      ¬ ∃ seg ∈ splitTopBar paramsC1 barC1 [] false,
          seg.startM ≤ barC1.endM ∧ barC1.endM ≤ seg.endM) ∧
    ((splitBottomBarCore paramsCZ barCZ [zoneCZ] 0).capped = false ∧
      splitBottomBar paramsCZ barCZ [zoneCZ] 0 ≠ [barCZ] ∧
      splitBottomBar paramsCZ barCZ [zoneCZ] 0 ≠ [] ∧
      ¬ ∃ seg ∈ splitBottomBar paramsCZ barCZ [zoneCZ] 0,
          seg.startM ≤ barCZ.endM ∧ barCZ.endM ≤ seg.endM) := by
  refine ⟨?_, by with_unfolding_all decide⟩
  have hcore : splitTopBarCore paramsC1 barC1 [] false =
      topLoop paramsC1 barC1 [] false false false 100 0 1 := by
    with_unfolding_all rfl
  have hpos0 : (0 : ℚ) < barC1.endM - eps6 := by with_unfolding_all decide
  have hrest := c1ce_loop 99 1.3 2 (by omega) (by norm_num) (by norm_num)
  have hcs : (splitTopBarCore paramsC1 barC1 [] false).segs =
      mkSegment barC1 1 0 1.8 "Superior" ::
        (topLoop paramsC1 barC1 [] false false false 99 1.3 2).segs := by
    rw [hcore, show (100 : ℕ) = 99 + 1 from rfl, topLoop, if_pos hpos0]
    simp only [c1ce_first]
  have hsplit : splitTopBar paramsC1 barC1 [] false =
      attachSplices (splitTopBarCore paramsC1 barC1 [] false).segs
        (splitTopBarCore paramsC1 barC1 [] false).joints := by
    simp only [splitTopBar, hcs, List.isEmpty_cons, Bool.false_eq_true,
      if_false]
  have hgeom : (splitTopBar paramsC1 barC1 [] false).map
        (fun g => (g.startM, g.endM)) =
      (splitTopBarCore paramsC1 barC1 [] false).segs.map
        (fun g => (g.startM, g.endM)) := by
    rw [hsplit]
    exact attachSplices_geom _ _
  have hlen : (splitTopBar paramsC1 barC1 [] false).length =
      (splitTopBarCore paramsC1 barC1 [] false).segs.length := by
    have h := congrArg List.length hgeom
    simpa using h
  constructor
  · rw [hlen, hcs, List.length_cons, hrest.2.1]
    omega
  · rintro ⟨seg, hmem, hs1, hs2⟩
    have hmm : (seg.startM, seg.endM) ∈
        (splitTopBar paramsC1 barC1 [] false).map
          (fun g => (g.startM, g.endM)) :=
      List.mem_map_of_mem _ hmem
    rw [hgeom] at hmm
    obtain ⟨sg, hsg, heq⟩ := List.mem_map.mp hmm
    injection heq with heq1 heq2
    have hb : sg.endM ≤ 299.5 := by
      rw [hcs] at hsg
      rcases List.mem_cons.mp hsg with rfl | hmem2
      · with_unfolding_all decide
      · exact hrest.2.2 sg hmem2
    have hb2 : barC1.endM = (300 : ℚ) := rfl
    rw [hb2] at hs2
    rw [heq2] at hb
    linarith

end Despiece
